import Mathlib

/-!
Daedaluzz, a generator of benchmark programs with random control flow.

A shallow embedding of `src/main.go`.

* Go `int` values are `Int`, taken as 64 bits wide; the two sums that can
  leave that range for values the source can hold, `numFuncParams +
  numAdditionalInputs` and `maxDepth + 1`, wrap (`wrapInt`).  The other sums
  stay in range: `idx - numFuncParams` lies in `[0, len(additionalInputs))`,
  `maxDepth - 1` is taken of a depth of at least one, and the counter and the
  indentation grow by one per leaf, cell or level.  The `uint64` bound
  `maxConst` and the `uint64` draws are `Nat` with the reduction modulo `2^64`
  written out where the source computes on them.
* The seeded generator `*rand.Rand` of the library `math/rand` is a position
  in an infinite stream of raw draws.  Every call of `Intn`, `Uint64` or
  `Float64` consumes one element of the stream and maps it onto the range of
  results the library documents, so that every result the library can return
  is the result for some stream.
* Every `fmt.Sprintf` call of the source becomes a constructor holding the
  arguments of that call, and a `render` function gives the text.
* A Go run-time panic (`Intn` with a non-positive bound, an index out of
  range, a remainder by zero, `strings.Repeat` with a negative count) is the
  result `none`.
-/

namespace Daedaluzz

/-! ## Go integers -/

/-- The value a Go `int` takes when the exact result of an operation is `z`:
the result wraps around modulo `2^64` into `[-2^63, 2^63)`. -/
def wrapInt (z : Int) : Int := (z + 2 ^ 63) % 2 ^ 64 - 2 ^ 63

/-- A value a Go `int` can hold. -/
def IsGoInt (z : Int) : Prop := -2 ^ 63 ≤ z ∧ z < 2 ^ 63

/-! ## The random source -/

/-- The generator state: the stream of raw draws and the number of draws
consumed so far. -/
structure Rand where
  draws : Nat → Nat
  pos : Nat

/-- The raw value the next call will consume. -/
def Rand.raw (rnd : Rand) : Nat := rnd.draws rnd.pos

/-- The generator after one call. -/
def Rand.advance (rnd : Rand) : Rand := { rnd with pos := rnd.pos + 1 }

/-- The call `rnd.Intn(n)`: panics when `n <= 0`, else a value in `[0, n)`. -/
def Rand.Intn (rnd : Rand) (n : Int) : Option (Int × Rand) :=
  if n ≤ 0 then none else some ((rnd.raw : Int) % n, rnd.advance)

/-- The call `rnd.Uint64()`: a full-width unsigned 64-bit value. -/
def Rand.Uint64 (rnd : Rand) : Nat × Rand := (rnd.raw % 2 ^ 64, rnd.advance)

/-- The call `rnd.Float64()`: the library divides a non-negative 63-bit
integer, rounded to a `float64`, by `2^63`, so the result is a multiple of
`2^-63` in `[0, 1)`; every such multiple is allowed here.  A `float64` is a
rational number and `<` on floats is exact, so the comparison with `retProb`
is the comparison of rationals (a `retProb` that is NaN or infinite compares
like `0`, like `1` or like `-1`). -/
def Rand.Float64 (rnd : Rand) : ℚ × Rand :=
  (((rnd.raw % 2 ^ 63 : Nat) : ℚ) / 2 ^ 63, rnd.advance)

/-! ## The condition synthesizer (`rndCond`) -/

/-- The text returned by `rndInput`: `p%v` of a parameter index, or
`uint64(%v)` of an additional input. -/
inductive Operand where
  | param (idx : Int)
  | additional (name : String)
  deriving DecidableEq, Repr

/-- The right-hand side built by the `switch rnd.Intn(6)` of `rndCond`, one
constructor per case, in the order of the cases. -/
inductive RightExpr where
  | const (c : Nat)
  | input (a : Operand)
  | constPlusInput (c : Nat) (a : Operand)
  | inputPlusInput (a b : Operand)
  | constTimesInput (c : Nat) (a : Operand)
  | inputTimesInput (a b : Operand)
  deriving DecidableEq, Repr

/-- The arguments of the final `fmt.Sprintf("%v %v %v", ...)` of `rndCond`. -/
structure Cond where
  left : Operand
  op : String
  right : RightExpr
  deriving DecidableEq, Repr

/-- The constants that occur in a right-hand side. -/
def RightExpr.consts : RightExpr → List Nat
  | .const c => [c]
  | .input _ => []
  | .constPlusInput c _ => [c]
  | .inputPlusInput _ _ => []
  | .constTimesInput c _ => [c]
  | .inputTimesInput _ _ => []

/-- The constants that occur in a condition (the left side is never one). -/
def Cond.consts (c : Cond) : List Nat := c.right.consts

/-- The closure `rndInput` of `rndCond`.  The sum passed to `Intn` is a Go
`int` and wraps. -/
def rndInput (rnd : Rand) (numFuncParams : Int) (additionalInputs : List String) :
    Option (Operand × Rand) :=
  let numAdditionalInputs : Int := additionalInputs.length
  match rnd.Intn (wrapInt (numFuncParams + numAdditionalInputs)) with
  | none => none
  | some (idx, rnd) =>
    if idx < numFuncParams then
      some (Operand.param idx, rnd)
    else
      let idx := idx - numFuncParams
      if idx < 0 then none
      else
        match additionalInputs[idx.toNat]? with
        | none => none
        | some e => some (Operand.additional e, rnd)

/-- The closure `rndConst` of `rndCond`, returning the value `c` that is
printed.  `maxConst + 1` is computed in `uint64`, and a remainder by zero
panics. -/
def rndConst (rnd : Rand) (maxConst : Nat) : Option (Nat × Rand) :=
  let (c, rnd) := rnd.Uint64
  if maxConst < c then
    let m := (maxConst + 1) % 2 ^ 64
    if m = 0 then none else some (c % m, rnd)
  else
    some (c, rnd)

/-- The relational operators, `ops` of `rndCond`. -/
def ops : List String := ["<", ">", "<=", ">=", "==", "!="]

/-- The `switch rnd.Intn(6)` of `rndCond`; the calls in the arguments of a
`Sprintf` run left to right. -/
def rndExprRight (rnd : Rand) (numFuncParams : Int) (maxConst : Nat)
    (additionalInputs : List String) (shape : Int) : Option (RightExpr × Rand) :=
  if shape = 0 then
    match rndConst rnd maxConst with
    | none => none
    | some (c, rnd) => some (RightExpr.const c, rnd)
  else if shape = 1 then
    match rndInput rnd numFuncParams additionalInputs with
    | none => none
    | some (a, rnd) => some (RightExpr.input a, rnd)
  else if shape = 2 then
    match rndConst rnd maxConst with
    | none => none
    | some (c, rnd) =>
      match rndInput rnd numFuncParams additionalInputs with
      | none => none
      | some (a, rnd) => some (RightExpr.constPlusInput c a, rnd)
  else if shape = 3 then
    match rndInput rnd numFuncParams additionalInputs with
    | none => none
    | some (a, rnd) =>
      match rndInput rnd numFuncParams additionalInputs with
      | none => none
      | some (b, rnd) => some (RightExpr.inputPlusInput a b, rnd)
  else if shape = 4 then
    match rndConst rnd maxConst with
    | none => none
    | some (c, rnd) =>
      match rndInput rnd numFuncParams additionalInputs with
      | none => none
      | some (a, rnd) => some (RightExpr.constTimesInput c a, rnd)
  else
    match rndInput rnd numFuncParams additionalInputs with
    | none => none
    | some (a, rnd) =>
      match rndInput rnd numFuncParams additionalInputs with
      | none => none
      | some (b, rnd) => some (RightExpr.inputTimesInput a b, rnd)

/-- The function `rndCond`. -/
def rndCond (rnd : Rand) (numFuncParams : Int) (maxConst : Nat)
    (additionalInputs : List String) : Option (Cond × Rand) :=
  match rndInput rnd numFuncParams additionalInputs with
  | none => none
  | some (rndExprLeft, rnd) =>
    match rnd.Intn 6 with
    | none => none
    | some (shape, rnd) =>
      match rndExprRight rnd numFuncParams maxConst additionalInputs shape with
      | none => none
      | some (rndExprRight, rnd) =>
        let numOps : Int := ops.length
        match rnd.Intn numOps with
        | none => none
        | some (k, rnd) =>
          if k < 0 then none
          else
            match ops[k.toNat]? with
            | none => none
            | some rndOp => some (⟨rndExprLeft, rndOp, rndExprRight⟩, rnd)

/-- The text of an operand. -/
def Operand.render : Operand → String
  | .param idx => "p" ++ toString idx
  | .additional e => "uint64(" ++ e ++ ")"

/-- The text `uint64(%v)` of a constant. -/
def renderConst (c : Nat) : String := "uint64(" ++ toString c ++ ")"

/-- The text of a right-hand side. -/
def RightExpr.render : RightExpr → String
  | .const c => renderConst c
  | .input a => a.render
  | .constPlusInput c a => "uint64(" ++ renderConst c ++ " + " ++ a.render ++ ")"
  | .inputPlusInput a b => "uint64(" ++ a.render ++ " + " ++ b.render ++ ")"
  | .constTimesInput c a => "uint64(" ++ renderConst c ++ " * " ++ a.render ++ ")"
  | .inputTimesInput a b => "uint64(" ++ a.render ++ " * " ++ b.render ++ ")"

/-- The text `left op right` of a condition. -/
def Cond.render (c : Cond) : String :=
  c.left.render ++ " " ++ c.op ++ " " ++ c.right.render

/-- The call `strings.Repeat("  ", indent)`, which panics on a negative
count. -/
def indentStr (indent : Int) : Option String :=
  if indent < 0 then none else some (String.join (List.replicate indent.toNat "  "))

/-! ## Tree mode (`generateBenchmarkStateless`) -/

/-- The static configuration of `generateBenchmarkStateless`. -/
structure StatelessConfig where
  numFuncParams : Int
  maxConst : Nat
  retProb : ℚ
  maxDepth : Int
  additionalInputs : List String

/-- The values written in `generateBenchmarkStateless`; `retProb` is the
`float64` nearest to `0.1`. -/
def StatelessConfig.default : StatelessConfig where
  numFuncParams := 8
  maxConst := 64
  retProb := 3602879701896397 / 36028797018963968
  maxDepth := 8
  additionalInputs := ["msg.value", "tx.gasprice", "block.number"]

/-- The two `Sprintf` calls of `rndTreeStmtBlock`.  A leaf holds the
indentation, the value printed in the `AssertionFailed` marker and the value
printed in the `return` statement; a branch holds the indentation, the
condition and the two blocks. -/
inductive BodyNode where
  | leaf (indent : Int) (marker : Int) (ret : Int)
  | branch (indent : Int) (cond : Cond) (thBlock elBlock : BodyNode)
  deriving DecidableEq, Repr

/-- The leaf case of `rndTreeStmtBlock`: `rv := retCnt; retCnt++` and the
first `Sprintf`. -/
def treeLeaf (indent : Int) (rnd : Rand) (retCnt : Int) : Option (BodyNode × Rand × Int) :=
  let rv := retCnt
  let retCnt := retCnt + 1
  match indentStr indent with
  | none => none
  | some _ => some (BodyNode.leaf indent rv rv, rnd, retCnt)

/-- The closure `rndTreeStmtBlock`, with the captured generator and the
captured counter `retCnt` passed in and returned.  The `||` of the source does
not draw when `maxDepth < 1`. -/
def rndTreeStmtBlock (cfg : StatelessConfig) (maxDepth indent : Int) (rnd : Rand)
    (retCnt : Int) : Option (BodyNode × Rand × Int) :=
  if maxDepth < 1 then
    treeLeaf indent rnd retCnt
  else
    let (f, rnd) := rnd.Float64
    if f < cfg.retProb then
      treeLeaf indent rnd retCnt
    else
      match indentStr indent with
      | none => none
      | some _ =>
        match rndCond rnd cfg.numFuncParams cfg.maxConst cfg.additionalInputs with
        | none => none
        | some (rCond, rnd) =>
          match rndTreeStmtBlock cfg (maxDepth - 1) (indent + 1) rnd retCnt with
          | none => none
          | some (thBlock, rnd, retCnt) =>
            match rndTreeStmtBlock cfg (maxDepth - 1) (indent + 1) rnd retCnt with
            | none => none
            | some (elBlock, rnd, retCnt) =>
              some (BodyNode.branch indent rCond thBlock elBlock, rnd, retCnt)
termination_by maxDepth.toNat
decreasing_by all_goals omega

/-- The body of `generateBenchmarkStateless` up to the template:
`retCnt := 0` and `body := rndTreeStmtBlock(maxDepth, 3)`. -/
def statelessBody (cfg : StatelessConfig) (rnd : Rand) : Option (BodyNode × Rand × Int) :=
  rndTreeStmtBlock cfg cfg.maxDepth 3 rnd 0

/-- The spaces of an indentation that is known not to be negative. -/
def spaces (indent : Int) : String := String.join (List.replicate indent.toNat "  ")

/-- The text of a tree block. -/
def BodyNode.render : BodyNode → String
  | .leaf indent marker ret =>
    spaces indent ++ "emit AssertionFailed(\"" ++ toString marker ++ "\"); assert(false); return "
      ++ toString ret ++ ";"
  | .branch indent cond thBlock elBlock =>
    spaces indent ++ "if (" ++ cond.render ++ ") \x7b\n" ++ thBlock.render ++ "\n"
      ++ spaces indent ++ "\x7d else \x7b\n" ++ elBlock.render ++ "\n" ++ spaces indent ++ "\x7d"

/-- The leaves of a tree in textual order: then-block before else-block. -/
def BodyNode.leaves : BodyNode → List (Int × Int)
  | .leaf _ marker ret => [(marker, ret)]
  | .branch _ _ thBlock elBlock => thBlock.leaves ++ elBlock.leaves

/-- The identifiers in the `AssertionFailed` markers, in textual order. -/
def BodyNode.markerIds (t : BodyNode) : List Int := t.leaves.map Prod.fst

/-- The number of leaves of a tree. -/
def BodyNode.leafCount : BodyNode → Nat
  | .leaf _ _ _ => 1
  | .branch _ _ thBlock elBlock => thBlock.leafCount + elBlock.leafCount

/-- The number of `if` statements in a tree. -/
def BodyNode.branches : BodyNode → Nat
  | .leaf _ _ _ => 0
  | .branch _ _ thBlock elBlock => thBlock.branches + elBlock.branches + 1

/-- The largest number of nested `if` statements around a leaf. -/
def BodyNode.depth : BodyNode → Nat
  | .leaf _ _ _ => 0
  | .branch _ _ thBlock elBlock => max thBlock.depth elBlock.depth + 1

/-- The conditions of a tree, in textual order. -/
def BodyNode.conds : BodyNode → List Cond
  | .leaf _ _ _ => []
  | .branch _ cond thBlock elBlock => cond :: (thBlock.conds ++ elBlock.conds)

/-! ## Maze mode (`generateBenchmarkStateful`) -/

/-- The static configuration of `generateBenchmarkStateful`. -/
structure StatefulConfig where
  numFuncParams : Int
  maxConst : Nat
  dimX : Int
  dimY : Int
  minDepth : Int
  maxDepth : Int
  additionalInputs : List String

/-- The values written in `generateBenchmarkStateful`; `useAdditionalInputs`
is false there, so the slice stays empty. -/
def StatefulConfig.default : StatefulConfig where
  numFuncParams := 8
  maxConst := 64
  dimX := 7
  dimY := 7
  minDepth := 2
  maxDepth := 16
  additionalInputs := []

/-- The two `Sprintf` calls of `rndLinearStmtBlock`: the `// bug` line with
its indentation and marker value, and an `if` without else arm. -/
inductive Chain where
  | bug (indent : Int) (marker : Int)
  | guard (indent : Int) (cond : Cond) (thBlock : Chain)
  deriving DecidableEq, Repr

/-- The closure `rndLinearStmtBlock`, with the captured generator passed in
and returned. -/
def rndLinearStmtBlock (cfg : StatefulConfig) (depth indent rv : Int) (rnd : Rand) :
    Option (Chain × Rand) :=
  if depth < 1 then
    match indentStr indent with
    | none => none
    | some _ => some (Chain.bug indent rv, rnd)
  else
    match indentStr indent with
    | none => none
    | some _ =>
      match rndCond rnd cfg.numFuncParams cfg.maxConst cfg.additionalInputs with
      | none => none
      | some (rCond, rnd) =>
        match rndLinearStmtBlock cfg (depth - 1) (indent + 1) rv rnd with
        | none => none
        | some (thBlock, rnd) => some (Chain.guard indent rCond thBlock, rnd)
termination_by depth.toNat
decreasing_by omega

/-- The three values the variable `bl` takes in the loop body. -/
inductive CellBody where
  | start
  | wall
  | chain (c : Chain)
  deriving DecidableEq, Repr

/-- The arguments of the `Fprintf` that writes one cell: `i`, `j`, `bl`, `rv`. -/
structure Cell where
  i : Int
  j : Int
  bl : CellBody
  rv : Int
  deriving DecidableEq, Repr

/-- The variables the loops of `generateBenchmarkStateful` update. -/
structure MazeState where
  rnd : Rand
  retCnt : Int
  body : List Cell

/-- One run of the inner loop body, for the cell `(i, j)`.  The sum
`maxDepth + 1` passed to `Intn` is a Go `int` and wraps. -/
def mazeCell (cfg : StatefulConfig) (i j : Int) (st : MazeState) : Option MazeState :=
  let rv := st.retCnt
  let retCnt := st.retCnt + 1
  if 0 < i ∨ 0 < j then
    match st.rnd.Intn (wrapInt (cfg.maxDepth + 1)) with
    | none => none
    | some (d, rnd) =>
      if cfg.minDepth ≤ d then
        match rndLinearStmtBlock cfg d 4 rv rnd with
        | none => none
        | some (bl, rnd) => some ⟨rnd, retCnt, st.body ++ [⟨i, j, CellBody.chain bl, rv⟩]⟩
      else
        some ⟨rnd, retCnt, st.body ++ [⟨i, j, CellBody.wall, rv⟩]⟩
  else
    some ⟨st.rnd, retCnt, st.body ++ [⟨i, j, CellBody.start, rv⟩]⟩

/-- The loop `for k := 0; k < n; k++ { body }` on a state, stopping at a
panic. -/
def forLoop {σ : Type} (body : Int → σ → Option σ) : Nat → σ → Option σ
  | 0, st => some st
  | n + 1, st =>
    match forLoop body n st with
    | none => none
    | some st => body (n : Int) st

/-- The inner loop `for j := 0; j < dimY; j++`. -/
def mazeRow (cfg : StatefulConfig) (i : Int) (st : MazeState) : Option MazeState :=
  forLoop (fun j st => mazeCell cfg i j st) cfg.dimY.toNat st

/-- The body generation of `generateBenchmarkStateful`: `retCnt := 0`, an
empty builder, and the two nested loops. -/
def mazeBody (cfg : StatefulConfig) (rnd : Rand) : Option MazeState :=
  forLoop (fun i st => mazeRow cfg i st) cfg.dimX.toNat ⟨rnd, 0, []⟩

/-- The marker value of a chain: the value printed by its `// bug` line. -/
def Chain.marker : Chain → Int
  | .bug _ marker => marker
  | .guard _ _ thBlock => thBlock.marker

/-- The number of nested `if` guards of a chain. -/
def Chain.depth : Chain → Nat
  | .bug _ _ => 0
  | .guard _ _ thBlock => thBlock.depth + 1

/-- The conditions of a chain, outermost first. -/
def Chain.conds : Chain → List Cond
  | .bug _ _ => []
  | .guard _ cond thBlock => cond :: thBlock.conds

/-- The identifiers in the `AssertionFailed` markers of one cell body. -/
def CellBody.markerIds : CellBody → List Int
  | .start => []
  | .wall => []
  | .chain c => [c.marker]

/-- The identifiers in the `AssertionFailed` markers of the body, in textual
order. -/
def markerIds (cells : List Cell) : List Int := cells.flatMap (fun c => c.bl.markerIds)

/-- The values `(i, j, rv)` one `Fprintf` prints around `bl`. -/
def Cell.key (c : Cell) : Int × Int × Int := (c.i, c.j, c.rv)

/-- The coordinate pairs of the guards `x == i && y == j`, in textual order. -/
def cellGuards (cells : List Cell) : List (Int × Int) := cells.map (fun c => (c.i, c.j))

/-- The row-major enumeration of a grid of `X` by `Y` cells: the pair `(i, j)`
with its index `i * Y + j`, the first coordinate varying slowest. -/
def gridKeys (X Y : Nat) : List (Int × Int × Int) :=
  (List.range X).flatMap
    (fun (i : Nat) => (List.range Y).map (fun (j : Nat) => ((i : Int), (j : Int), (i : Int) * Y + j)))

/-- What the loop body guarantees about the cell it writes: the placeholder
only where neither coordinate is positive, a wall or a chain only elsewhere,
and a chain carries the cell's `rv` as marker and has at least `minDepth`
guards and fewer than the bound `maxDepth + 1` passed to `Intn`. -/
def CellOK (cfg : StatefulConfig) (c : Cell) : Prop :=
  (c.bl = CellBody.start → ¬ (0 < c.i ∨ 0 < c.j)) ∧
  (c.bl = CellBody.wall → (0 < c.i ∨ 0 < c.j)) ∧
  (∀ ch, c.bl = CellBody.chain ch →
    (0 < c.i ∨ 0 < c.j) ∧ ch.marker = c.rv ∧
      cfg.minDepth ≤ (ch.depth : Int) ∧ (ch.depth : Int) < wrapInt (cfg.maxDepth + 1))

/-- The text of a chain. -/
def Chain.render : Chain → String
  | .bug indent marker =>
    spaces indent ++ "emit AssertionFailed(\"" ++ toString marker ++ "\"); assert(false);  // bug"
  | .guard indent cond thBlock =>
    spaces indent ++ "if (" ++ cond.render ++ ") \x7b\n" ++ thBlock.render ++ "\n"
      ++ spaces indent ++ "\x7d"

/-- The text of `bl`. -/
def CellBody.render : CellBody → String
  | .start => "        // start"
  | .wall => "        require(false);  // wall"
  | .chain c => c.render

/-- The text one `Fprintf` appends to the builder. -/
def Cell.render (c : Cell) : String :=
  "      if (x == " ++ toString c.i ++ " && y == " ++ toString c.j ++ ") \x7b\n"
    ++ c.bl.render ++ "\n        return " ++ toString c.rv ++ ";\n      \x7d\n"

/-- The text `bodyBuilder.String()`. -/
def renderBody (cells : List Cell) : String := String.join (cells.map Cell.render)

/-! ## The program emitter -/

/-- The struct `ProgramPlaceholders`, declared with the same fields in both
generators. -/
structure ProgramPlaceholders where
  ParamsStr : String
  ArgsStr : String
  DimX : Int
  DimY : Int
  BodyStr : String
  RetCnt : Int
  deriving DecidableEq, Repr

/-- The text `strings.Join(params, ", ")` with `params[i] = "uint64 p%v"`. -/
def paramsStr (numFuncParams : Int) : String :=
  ", ".intercalate ((List.range numFuncParams.toNat).map (fun i => "uint64 p" ++ toString i))

/-- The text `strings.Join(args, ", ")` with `args[i] = "p%v"`. -/
def argsStr (numFuncParams : Int) : String :=
  ", ".intercalate ((List.range numFuncParams.toNat).map (fun i => "p" ++ toString i))

/-- The placeholders `generateBenchmarkStateful` builds once the loops have
run.  Both dimension fields are initialised from `dimY` in the source. -/
def statefulPlaceholders (cfg : StatefulConfig) (st : MazeState) : ProgramPlaceholders where
  ParamsStr := paramsStr cfg.numFuncParams
  ArgsStr := argsStr cfg.numFuncParams
  DimX := cfg.dimY
  DimY := cfg.dimY
  BodyStr := renderBody st.body
  RetCnt := st.retCnt

/-- The placeholders `generateBenchmarkStateless` builds: only `ParamsStr` and
`BodyStr` are set, the other fields keep their zero values. -/
def statelessPlaceholders (cfg : StatelessConfig) (body : BodyNode) : ProgramPlaceholders where
  ParamsStr := paramsStr cfg.numFuncParams
  ArgsStr := ""
  DimX := 0
  DimY := 0
  BodyStr := body.render
  RetCnt := 0

/-- A piece of a parsed template: literal text or one of the actions
`{{.Field}}`. -/
inductive TemplatePart where
  | text (s : String)
  | ParamsStr
  | ArgsStr
  | DimX
  | DimY
  | BodyStr
  | RetCnt
  deriving DecidableEq, Repr

/-- The text one piece prints for given placeholders. -/
def TemplatePart.execute (p : ProgramPlaceholders) : TemplatePart → String
  | .text s => s
  | .ParamsStr => p.ParamsStr
  | .ArgsStr => p.ArgsStr
  | .DimX => toString p.DimX
  | .DimY => toString p.DimY
  | .BodyStr => p.BodyStr
  | .RetCnt => toString p.RetCnt

/-- The text a template prints for given placeholders. -/
def executeTemplate (t : List TemplatePart) (p : ProgramPlaceholders) : String :=
  String.join (t.map (TemplatePart.execute p))

/-- The head of the maze template, up to the first function. -/
def mazeHeader : List TemplatePart :=
  [.text ("pragma solidity ^0.8.19;\n/// automatically generated by Daedaluzz\n"
    ++ "contract Maze \x7b\n  event AssertionFailed(string message);\n"
    ++ "  uint64 private x;\n  uint64 private y;\n")]

/-- The function `moveNorth` of the maze template. -/
def moveNorth : List TemplatePart :=
  [.text "  function moveNorth(", .ParamsStr,
   .text ") payable external returns (int64) \x7b\n    uint64 ny = y + 1;\n    require(ny < ",
   .DimY, .text ");\n    y = ny;\n    return step(", .ArgsStr, .text ");\n  \x7d\n"]

/-- The function `moveSouth` of the maze template. -/
def moveSouth : List TemplatePart :=
  [.text "  function moveSouth(", .ParamsStr,
   .text (") payable external returns (int64) \x7b\n    require(0 < y);\n"
     ++ "    uint64 ny = y - 1;\n    y = ny;\n    return step("),
   .ArgsStr, .text ");\n  \x7d\n"]

/-- The function `moveEast` of the maze template. -/
def moveEast : List TemplatePart :=
  [.text "  function moveEast(", .ParamsStr,
   .text ") payable external returns (int64) \x7b\n    uint64 nx = x + 1;\n    require(nx < ",
   .DimX, .text ");\n    x = nx;\n    return step(", .ArgsStr, .text ");\n  \x7d\n"]

/-- The function `moveWest` of the maze template. -/
def moveWest : List TemplatePart :=
  [.text "  function moveWest(", .ParamsStr,
   .text (") payable external returns (int64) \x7b\n    require(0 < x);\n"
     ++ "    uint64 nx = x - 1;\n    x = nx;\n    return step("),
   .ArgsStr, .text ");\n  \x7d\n"]

/-- The function `step` of the maze template and the end of the contract. -/
def stepDispatcher : List TemplatePart :=
  [.text "  function step(", .ParamsStr,
   .text ") internal returns (int64) \x7b\n    unchecked \x7b\n", .BodyStr,
   .text "      return ", .RetCnt, .text ";\n    \x7d\n  \x7d\n\x7d\n"]

/-- The template `progTemplate` of `generateBenchmarkStateful`. -/
def mazeTemplate : List TemplatePart :=
  mazeHeader ++ moveNorth ++ moveSouth ++ moveEast ++ moveWest ++ stepDispatcher

/-- The template `progTemplate` of `generateBenchmarkStateless`. -/
def treeTemplate : List TemplatePart :=
  [.text ("pragma solidity ^0.8.19;\n/// automatically generated by Daedaluzz\n"
    ++ "contract C \x7b\n  event AssertionFailed(string message);\n  function f("),
   .ParamsStr,
   .text ") payable external returns (uint64) \x7b\n    unchecked \x7b\n", .BodyStr,
   .text "\n    \x7d\n  \x7d\n\x7d\n"]

/-- The text `generateBenchmarkStateful` writes when no step panics and the
template and file operations succeed.  `make([]string, numFuncParams)` panics
on a negative length. -/
def generateBenchmarkStateful (cfg : StatefulConfig) (rnd : Rand) : Option String :=
  if cfg.numFuncParams < 0 then none
  else
    match mazeBody cfg rnd with
    | none => none
    | some st => some (executeTemplate mazeTemplate (statefulPlaceholders cfg st))

/-- The text `generateBenchmarkStateless` writes when no step panics and the
template and file operations succeed. -/
def generateBenchmarkStateless (cfg : StatelessConfig) (rnd : Rand) : Option String :=
  if cfg.numFuncParams < 0 then none
  else
    match statelessBody cfg rnd with
    | none => none
    | some (body, _, _) => some (executeTemplate treeTemplate (statelessPlaceholders cfg body))

/-! ## Operands of a condition -/

/-- An operand the generated function can name: a declared parameter `p0`, ...,
`p(numFuncParams-1)`, or `uint64(e)` for an `e` of `additionalInputs`. -/
def Operand.Declared (numFuncParams : Int) (additionalInputs : List String) : Operand → Prop
  | .param idx => 0 ≤ idx ∧ idx < numFuncParams
  | .additional e => e ∈ additionalInputs

/-- The operands that occur in a right-hand side, left to right. -/
def RightExpr.operands : RightExpr → List Operand
  | .const _ => []
  | .input a => [a]
  | .constPlusInput _ a => [a]
  | .inputPlusInput a b => [a, b]
  | .constTimesInput _ a => [a]
  | .inputTimesInput a b => [a, b]

/-- The number of the `switch` case that builds a right-hand side: `0` for a
constant, `1` for an operand, `2` for constant + operand, `3` for operand +
operand, `4` for constant * operand, `5` for operand * operand. -/
def RightExpr.shape : RightExpr → Int
  | .const _ => 0
  | .input _ => 1
  | .constPlusInput _ _ => 2
  | .inputPlusInput _ _ => 3
  | .constTimesInput _ _ => 4
  | .inputTimesInput _ _ => 5

/-- The operands that occur in a condition, left to right. -/
def Cond.operands (c : Cond) : List Operand := c.left :: c.right.operands

/-- A condition that some call of `rndCond` returns for the configuration. -/
def Synthesized (cfg : StatefulConfig) (cond : Cond) : Prop :=
  ∃ r r', rndCond r cfg.numFuncParams cfg.maxConst cfg.additionalInputs = some (cond, r')

/-- Every condition of the cell's chain, if it holds one, is returned by a
call of `rndCond`. -/
def Cell.CondsSynthesized (cfg : StatefulConfig) (c : Cell) : Prop :=
  ∀ ch, c.bl = CellBody.chain ch → ∀ cond ∈ ch.conds, Synthesized cfg cond

/-! ## Running a generated tree -/

/-- The paths of a tree in textual order: for each leaf the outcomes of the
conditions above it (`true` for the then-block, `false` for the else-block)
and the value in its marker. -/
def BodyNode.paths : BodyNode → List (List Bool × Int)
  | .leaf _ marker _ => [([], marker)]
  | .branch _ _ thBlock elBlock =>
    thBlock.paths.map (fun q => (true :: q.1, q.2))
      ++ elBlock.paths.map (fun q => (false :: q.1, q.2))

/-- The run of the generated function `f` when the `k`-th condition it
evaluates has the outcome `outcomes k`: the outcomes used, and the value in the
marker of the leaf reached. -/
def BodyNode.follow (outcomes : Nat → Bool) : BodyNode → Nat → List Bool × Int
  | .leaf _ marker _, _ => ([], marker)
  | .branch _ _ thBlock elBlock, k =>
    if outcomes k then
      (true :: (thBlock.follow outcomes (k + 1)).1, (thBlock.follow outcomes (k + 1)).2)
    else
      (false :: (elBlock.follow outcomes (k + 1)).1, (elBlock.follow outcomes (k + 1)).2)

/-- A path agrees with the outcomes from position `k` on. -/
def agreesWith (outcomes : Nat → Bool) : List Bool → Nat → Prop
  | [], _ => True
  | b :: p, k => b = outcomes k ∧ agreesWith outcomes p (k + 1)

/-! ## Running the dispatcher `step` -/

/-- The results of the three library calls a generator makes after it has built
the placeholders: `template.New("program").Parse`, `os.Create` and `Execute`.
`none` is the error value `nil`; an error is kept as its message. -/
structure EmitEnv where
  parseErr : Option String
  createErr : Option String
  execErr : Option String

/-- The calls a generator makes on the template and on the output file; `close`
is the deferred `outFile.Close()`. -/
inductive EmitStep where
  | parse
  | create
  | execute
  | close
  deriving DecidableEq, Repr

/-- The statements of a generator from the call of `Parse` to its last
`return`: the error value returned and the calls made, in order.  The two
generators have the same statements there. -/
def writeProgram (env : EmitEnv) : Option String × List EmitStep :=
  match env.parseErr with
  | some parseErr => (some parseErr, [EmitStep.parse])
  | none =>
    match env.createErr with
    | some createErr => (some createErr, [EmitStep.parse, EmitStep.create])
    | none =>
      match env.execErr with
      | some execErr =>
        (some execErr, [EmitStep.parse, EmitStep.create, EmitStep.execute, EmitStep.close])
      | none => (none, [EmitStep.parse, EmitStep.create, EmitStep.execute, EmitStep.close])

/-- The return value of `generateBenchmarkStateful()` with the calls it made;
the outer `none` is a panic while the body is built. -/
def generateBenchmarkStatefulResult (cfg : StatefulConfig) (rnd : Rand) (env : EmitEnv) :
    Option (Option String × List EmitStep) :=
  match generateBenchmarkStateful cfg rnd with
  | none => none
  | some _ => some (writeProgram env)

/-- The return value of `generateBenchmarkStateless()` with the calls it made;
the outer `none` is a panic while the body is built. -/
def generateBenchmarkStatelessResult (cfg : StatelessConfig) (rnd : Rand) (env : EmitEnv) :
    Option (Option String × List EmitStep) :=
  match generateBenchmarkStateless cfg rnd with
  | none => none
  | some _ => some (writeProgram env)

/-- The constant `makeStateful` of `run`. -/
def makeStateful : Bool := true

/-- The function `run`, after its logging setup. -/
def run (cfg : StatefulConfig) (cfgTree : StatelessConfig) (rnd : Rand) (env : EmitEnv) :
    Option (Option String × List EmitStep) :=
  if makeStateful then
    generateBenchmarkStatefulResult cfg rnd env
  else
    generateBenchmarkStatelessResult cfgTree rnd env

/-! ## Generators that hand out the same draws -/

/-- Two generator states from which the same sequence of raw draws follows, as
after seeding two generators alike. -/
def Rand.Same (r s : Rand) : Prop := ∀ k, r.draws (r.pos + k) = s.draws (s.pos + k)

/-- Two results of a call that drew from a generator: the same value, and
generators that go on alike. -/
def SameStep {α : Type} (p q : α × Rand) : Prop := p.1 = q.1 ∧ p.2.Same q.2

/-- Two results of `rndTreeStmtBlock`: the same tree and counter, and
generators that go on alike. -/
def SameTree (p q : BodyNode × Rand × Int) : Prop :=
  p.1 = q.1 ∧ p.2.1.Same q.2.1 ∧ p.2.2 = q.2.2

/-- Two states of the maze loops with the same counter and body and with
generators that go on alike. -/
def MazeState.Same (a b : MazeState) : Prop :=
  a.rnd.Same b.rnd ∧ a.retCnt = b.retCnt ∧ a.body = b.body

/-- Two runs of a step that both panic, or both return and return related
results. -/
def OptRel {α : Type} (R : α → α → Prop) (x y : Option α) : Prop :=
  (x = none ∧ y = none) ∨ ∃ a b, x = some a ∧ y = some b ∧ R a b

/-! ## Sample inputs -/

/-- The stream whose every raw draw is `2`, at its start. -/
def twos : Rand := ⟨fun _ => 2, 0⟩

/-- The stream whose every raw draw is `0`, at its start. -/
def zeros : Rand := ⟨fun _ => 0, 0⟩

/-- The shipped maze configuration with the dimensions changed to `dimX = 3`
and `dimY = 5`. -/
def threeByFive : StatefulConfig := { StatefulConfig.default with dimX := 3, dimY := 5 }

/-- The stream whose every raw draw is `200`, at its start. -/
def twoHundreds : Rand := ⟨fun _ => 200, 0⟩

/-- The stream whose first raw draw is `2^62`, which `Float64` maps to `0.5`,
and whose other raw draws are `0`. -/
def halfThenZeros : Rand := ⟨fun n => if n = 0 then 2 ^ 62 else 0, 0⟩

/-! ## Go integers: lemmas -/

theorem wrapInt_eq {z : Int} (h1 : -2 ^ 63 ≤ z) (h2 : z < 2 ^ 63) : wrapInt z = z := by
  unfold wrapInt
  have h3 : (z + 2 ^ 63) % 2 ^ 64 = z + 2 ^ 63 :=
    Int.emod_eq_of_lt (by omega) (by omega)
  rw [h3]
  omega

theorem wrapInt_range (z : Int) : -2 ^ 63 ≤ wrapInt z ∧ wrapInt z < 2 ^ 63 := by
  unfold wrapInt
  have h1 := Int.emod_nonneg (z + 2 ^ 63) (by norm_num : (2 : Int) ^ 64 ≠ 0)
  have h2 := Int.emod_lt_of_pos (z + 2 ^ 63) (by norm_num : (0 : Int) < 2 ^ 64)
  constructor <;> omega

/-- A sum that is positive after wrapping is at most the exact sum, when the
exact sum is not below the range of `int`. -/
theorem wrapInt_le {z : Int} (h1 : -2 ^ 63 ≤ z) (h2 : 0 < wrapInt z) : wrapInt z ≤ z := by
  by_cases h3 : z < 2 ^ 63
  · rw [wrapInt_eq h1 h3]
  · have := (wrapInt_range z).2
    omega

/-! ## The condition synthesizer: lemmas -/

theorem uint64_lt (rnd : Rand) : rnd.Uint64.1 < 2 ^ 64 := by
  unfold Rand.Uint64
  exact Nat.mod_lt _ (by norm_num)

/-- What `rndConst` returns, for every draw and every bound. -/
theorem rndConst_eq (rnd : Rand) (maxConst : Nat) :
    rndConst rnd maxConst =
      some (if maxConst < rnd.Uint64.1 then rnd.Uint64.1 % (maxConst + 1) else rnd.Uint64.1,
        rnd.advance) := by
  have hlt := uint64_lt rnd
  unfold rndConst
  by_cases h : maxConst < rnd.Uint64.1
  · have hm : (maxConst + 1) % 2 ^ 64 = maxConst + 1 := Nat.mod_eq_of_lt (by omega)
    simp only [h, hm, if_true]
    have : ¬ (maxConst + 1 = 0) := by omega
    simp [this, Rand.Uint64]
  · simp only [h, if_false]
    simp [Rand.Uint64]

theorem rndConst_bound {rnd rnd' : Rand} {maxConst c : Nat}
    (h : rndConst rnd maxConst = some (c, rnd')) : c ≤ maxConst := by
  rw [rndConst_eq] at h
  simp only [Option.some.injEq, Prod.mk.injEq] at h
  obtain ⟨hc, -⟩ := h
  subst hc
  split
  · exact Nat.lt_succ_iff.mp (Nat.mod_lt _ (Nat.succ_pos _))
  · omega

theorem rndExprRight_consts {rnd rnd' : Rand} {numFuncParams : Int} {maxConst : Nat}
    {additionalInputs : List String} {shape : Int} {e : RightExpr}
    (h : rndExprRight rnd numFuncParams maxConst additionalInputs shape = some (e, rnd')) :
    ∀ c ∈ e.consts, c ≤ maxConst := by
  unfold rndExprRight at h
  split_ifs at h
  all_goals
    repeat' split at h
    all_goals
      cases h <;> intro c hc <;>
        simp only [RightExpr.consts, List.mem_singleton, List.not_mem_nil] at hc <;>
        (subst hc; exact rndConst_bound (by assumption))

theorem rndCond_consts {rnd rnd' : Rand} {numFuncParams : Int} {maxConst : Nat}
    {additionalInputs : List String} {cond : Cond}
    (h : rndCond rnd numFuncParams maxConst additionalInputs = some (cond, rnd')) :
    ∀ c ∈ cond.consts, c ≤ maxConst := by
  unfold rndCond at h
  dsimp only at h
  repeat' split at h
  all_goals
    cases h <;> exact rndExprRight_consts (by assumption)

theorem intn_eq {rnd : Rand} {n : Int} (h : 0 < n) :
    rnd.Intn n = some ((rnd.raw : Int) % n, rnd.advance) := by
  unfold Rand.Intn
  rw [if_neg (not_le.mpr h)]

theorem intn_range {rnd rnd' : Rand} {n d : Int} (h : rnd.Intn n = some (d, rnd')) :
    0 ≤ d ∧ d < n := by
  unfold Rand.Intn at h
  split_ifs at h with hn
  cases h
  have hpos : 0 < n := not_le.mp hn
  exact ⟨Int.emod_nonneg _ (ne_of_gt hpos), Int.emod_lt_of_pos _ hpos⟩

/-- With at least one operand to choose from and a number of operands that
fits an `int`, `rndInput` does not panic. -/
theorem rndInput_total (rnd : Rand) {numFuncParams : Int} {additionalInputs : List String}
    (h : 0 < numFuncParams + additionalInputs.length ∧
      numFuncParams + additionalInputs.length < 2 ^ 63) :
    ∃ a, rndInput rnd numFuncParams additionalInputs = some (a, rnd.advance) := by
  obtain ⟨h, hfit⟩ := h
  unfold rndInput
  dsimp only
  rw [wrapInt_eq (by omega) hfit, intn_eq h]
  dsimp only
  have h0 := Int.emod_nonneg (rnd.raw : Int) (ne_of_gt h)
  have h1 := Int.emod_lt_of_pos (rnd.raw : Int) h
  generalize (rnd.raw : Int) % (numFuncParams + (additionalInputs.length : Int)) = idx at *
  by_cases hlt : idx < numFuncParams
  · exact ⟨_, by rw [if_pos hlt]⟩
  · rw [if_neg hlt, if_neg (by omega)]
    have hb : (idx - numFuncParams).toNat < additionalInputs.length := by omega
    rw [List.getElem?_eq_getElem hb]
    exact ⟨_, rfl⟩

/-- With at least one operand to choose from and a number of operands that
fits an `int`, the `switch` does not panic. -/
theorem rndExprRight_total (rnd : Rand) {numFuncParams : Int} (maxConst : Nat)
    {additionalInputs : List String} (shape : Int)
    (h : 0 < numFuncParams + additionalInputs.length ∧
      numFuncParams + additionalInputs.length < 2 ^ 63) :
    ∃ r, rndExprRight rnd numFuncParams maxConst additionalInputs shape = some r := by
  unfold rndExprRight
  split_ifs
  all_goals
    first
    | (rw [rndConst_eq]
       dsimp only
       obtain ⟨a, ha⟩ := rndInput_total rnd.advance h
       rw [ha]
       exact ⟨_, rfl⟩)
    | (rw [rndConst_eq]
       exact ⟨_, rfl⟩)
    | (obtain ⟨a, ha⟩ := rndInput_total rnd h
       obtain ⟨b, hb⟩ := rndInput_total rnd.advance h
       rw [ha]
       dsimp only
       rw [hb]
       exact ⟨_, rfl⟩)
    | (obtain ⟨a, ha⟩ := rndInput_total rnd h
       rw [ha]
       exact ⟨_, rfl⟩)

/-- With at least one operand to choose from and a number of operands that
fits an `int`, `rndCond` does not panic. -/
theorem rndCond_total (rnd : Rand) {numFuncParams : Int} (maxConst : Nat)
    {additionalInputs : List String}
    (h : 0 < numFuncParams + additionalInputs.length ∧
      numFuncParams + additionalInputs.length < 2 ^ 63) :
    ∃ r, rndCond rnd numFuncParams maxConst additionalInputs = some r := by
  unfold rndCond
  obtain ⟨a, ha⟩ := rndInput_total rnd h
  rw [ha]
  dsimp only
  rw [intn_eq (by norm_num : (0 : Int) < 6)]
  dsimp only
  obtain ⟨⟨e, r⟩, he⟩ := rndExprRight_total rnd.advance.advance maxConst
    ((rnd.advance.raw : Int) % 6) h
  rw [he]
  dsimp only
  have h6 : (0 : Int) < ((ops.length : Nat) : Int) := by simp [ops]
  rw [intn_eq h6]
  dsimp only
  have h0 := Int.emod_nonneg (r.raw : Int) (ne_of_gt h6)
  have h1 := Int.emod_lt_of_pos (r.raw : Int) h6
  generalize (r.raw : Int) % ((ops.length : Nat) : Int) = k at *
  rw [if_neg (by omega)]
  have hb : k.toNat < ops.length := by omega
  rw [List.getElem?_eq_getElem hb]
  exact ⟨_, rfl⟩

/-! ## Tree mode: lemmas -/

theorem indentStr_isSome {indent : Int} (h : 0 ≤ indent) : ∃ s, indentStr indent = some s := by
  unfold indentStr
  rw [if_neg (not_lt.mpr h)]
  exact ⟨_, rfl⟩

theorem indentStr_nonneg {indent : Int} {s : String} (h : indentStr indent = some s) :
    0 ≤ indent := by
  unfold indentStr at h
  split_ifs at h with hneg
  exact not_lt.mp hneg

theorem treeLeaf_eq {indent : Int} (rnd : Rand) (retCnt : Int) (h : 0 ≤ indent) :
    treeLeaf indent rnd retCnt = some (BodyNode.leaf indent retCnt retCnt, rnd, retCnt + 1) := by
  obtain ⟨s, hs⟩ := indentStr_isSome h
  unfold treeLeaf
  dsimp only
  rw [hs]

theorem treeLeaf_inv {indent retCnt retCnt' : Int} {rnd rnd' : Rand} {t : BodyNode}
    (h : treeLeaf indent rnd retCnt = some (t, rnd', retCnt')) :
    t = BodyNode.leaf indent retCnt retCnt ∧ rnd' = rnd ∧ retCnt' = retCnt + 1 ∧ 0 ≤ indent := by
  unfold treeLeaf at h
  dsimp only at h
  split at h
  · cases h
  · rename_i s hs
    cases h
    exact ⟨rfl, rfl, rfl, indentStr_nonneg hs⟩

/-- The two ways a call of `rndTreeStmtBlock` returns: a leaf, or a branch
over two calls at depth `maxDepth - 1`. -/
theorem rndTreeStmtBlock_inv {cfg : StatelessConfig} {maxDepth indent retCnt retCnt' : Int}
    {rnd rnd' : Rand} {t : BodyNode}
    (h : rndTreeStmtBlock cfg maxDepth indent rnd retCnt = some (t, rnd', retCnt')) :
    (t = BodyNode.leaf indent retCnt retCnt ∧ retCnt' = retCnt + 1 ∧ 0 ≤ indent ∧
      ((maxDepth < 1 ∧ rnd' = rnd) ∨
        (1 ≤ maxDepth ∧ rnd.Float64.1 < cfg.retProb ∧ rnd' = rnd.advance))) ∨
    (1 ≤ maxDepth ∧ ¬ rnd.Float64.1 < cfg.retProb ∧ 0 ≤ indent ∧
      ∃ cond r1 th r2 c2 el,
        rndCond rnd.advance cfg.numFuncParams cfg.maxConst cfg.additionalInputs
          = some (cond, r1) ∧
        rndTreeStmtBlock cfg (maxDepth - 1) (indent + 1) r1 retCnt = some (th, r2, c2) ∧
        rndTreeStmtBlock cfg (maxDepth - 1) (indent + 1) r2 c2 = some (el, rnd', retCnt') ∧
        t = BodyNode.branch indent cond th el) := by
  rw [rndTreeStmtBlock] at h
  by_cases hd : maxDepth < 1
  · rw [if_pos hd] at h
    obtain ⟨h1, h2, h3, h4⟩ := treeLeaf_inv h
    exact Or.inl ⟨h1, h3, h4, Or.inl ⟨hd, h2⟩⟩
  · rw [if_neg hd] at h
    have hd1 : 1 ≤ maxDepth := not_lt.mp hd
    have hadv : rnd.Float64.2 = rnd.advance := rfl
    by_cases hp : rnd.Float64.1 < cfg.retProb
    · simp only [hp, if_true] at h
      obtain ⟨h1, h2, h3, h4⟩ := treeLeaf_inv h
      exact Or.inl ⟨h1, h3, h4, Or.inr ⟨hd1, hp, by rw [h2, hadv]⟩⟩
    · simp only [hp, if_false, hadv] at h
      refine Or.inr ⟨hd1, hp, ?_⟩
      split at h
      · cases h
      · rename_i s hs
        refine ⟨indentStr_nonneg hs, ?_⟩
        split at h
        · cases h
        · rename_i cond r1 hc
          split at h
          · cases h
          · rename_i th r2 c2 hth
            split at h
            · cases h
            · rename_i el r3 c3 hel
              cases h
              exact ⟨cond, r1, th, r2, c2, el, hc, hth, hel, rfl⟩

/-- With at least one operand to choose from, a number of operands that fits
an `int` and a non-negative indentation, `rndTreeStmtBlock` returns a block,
for every depth and every stream. -/
theorem rndTreeStmtBlock_total (cfg : StatelessConfig)
    (hin : 0 < cfg.numFuncParams + cfg.additionalInputs.length ∧
      cfg.numFuncParams + cfg.additionalInputs.length < 2 ^ 63) :
    ∀ (n : Nat) (maxDepth indent : Int) (rnd : Rand) (retCnt : Int),
      maxDepth ≤ n → 0 ≤ indent →
      ∃ r, rndTreeStmtBlock cfg maxDepth indent rnd retCnt = some r := by
  intro n
  induction n with
  | zero =>
    intro maxDepth indent rnd retCnt hn hi
    rw [rndTreeStmtBlock, if_pos (by omega), treeLeaf_eq rnd retCnt hi]
    exact ⟨_, rfl⟩
  | succ n ih =>
    intro maxDepth indent rnd retCnt hn hi
    rw [rndTreeStmtBlock]
    by_cases hd : maxDepth < 1
    · rw [if_pos hd, treeLeaf_eq rnd retCnt hi]
      exact ⟨_, rfl⟩
    · rw [if_neg hd]
      dsimp only
      by_cases hp : rnd.Float64.1 < cfg.retProb
      · rw [if_pos hp, treeLeaf_eq _ retCnt hi]
        exact ⟨_, rfl⟩
      · rw [if_neg hp]
        obtain ⟨s, hs⟩ := indentStr_isSome hi
        rw [hs]
        dsimp only
        obtain ⟨⟨cond, r1⟩, hc⟩ :=
          rndCond_total rnd.Float64.2 cfg.maxConst hin
        rw [hc]
        dsimp only
        have hn1 : maxDepth - 1 ≤ (n : Int) := by push_cast at hn; omega
        obtain ⟨⟨th, r2, c2⟩, hth⟩ := ih (maxDepth - 1) (indent + 1) r1 retCnt hn1 (by omega)
        rw [hth]
        dsimp only
        obtain ⟨⟨el, r3, c3⟩, hel⟩ := ih (maxDepth - 1) (indent + 1) r2 c2 hn1 (by omega)
        rw [hel]
        exact ⟨_, rfl⟩

theorem range_map_append (c : Int) (a b : Nat) :
    (List.range a).map (fun (k : Nat) => (c + (k : Int), c + (k : Int)))
      ++ (List.range b).map (fun (k : Nat) => (c + (a : Int) + (k : Int), c + (a : Int) + (k : Int)))
    = (List.range (a + b)).map (fun (k : Nat) => (c + (k : Int), c + (k : Int))) := by
  rw [List.range_add, List.map_append, List.map_map]
  congr 1
  apply List.map_congr_left
  intro k _
  simp only [Function.comp_apply, Nat.cast_add, add_assoc]

/-- The leaves of a block carry the counter values `retCnt, retCnt + 1, ...` in
textual order, as marker and as returned value, and the counter ends behind
the last of them. -/
theorem rndTreeStmtBlock_leaves (cfg : StatelessConfig) :
    ∀ (n : Nat) (maxDepth indent : Int) (rnd : Rand) (retCnt : Int) (t : BodyNode)
      (rnd' : Rand) (retCnt' : Int), maxDepth ≤ n →
      rndTreeStmtBlock cfg maxDepth indent rnd retCnt = some (t, rnd', retCnt') →
      t.leaves = (List.range t.leaves.length).map
          (fun (k : Nat) => (retCnt + (k : Int), retCnt + (k : Int))) ∧
        retCnt' = retCnt + t.leaves.length := by
  intro n
  induction n with
  | zero =>
    intro maxDepth indent rnd retCnt t rnd' retCnt' hn h
    rcases rndTreeStmtBlock_inv h with ⟨ht, hc, -, -⟩ | ⟨hd, -⟩
    · subst ht hc
      simp [BodyNode.leaves, List.range_succ]
    · simp at hn; omega
  | succ n ih =>
    intro maxDepth indent rnd retCnt t rnd' retCnt' hn h
    rcases rndTreeStmtBlock_inv h with
      ⟨ht, hc, -, -⟩ | ⟨hd, -, -, cond, r1, th, r2, c2, el, -, hth, hel, ht⟩
    · subst ht hc
      simp [BodyNode.leaves, List.range_succ]
    · have hn1 : maxDepth - 1 ≤ (n : Int) := by push_cast at hn; omega
      obtain ⟨hl1, hc1⟩ := ih _ _ _ _ _ _ _ hn1 hth
      obtain ⟨hl2, hc2⟩ := ih _ _ _ _ _ _ _ hn1 hel
      subst ht
      simp only [BodyNode.leaves, List.length_append]
      refine ⟨?_, ?_⟩
      · rw [← range_map_append, ← hl1, ← hc1, ← hl2]
      · rw [hc2, hc1]; push_cast; ring

/-- No leaf of a block lies under more than `maxDepth` nested `if`s. -/
theorem rndTreeStmtBlock_depth (cfg : StatelessConfig) :
    ∀ (n : Nat) (maxDepth indent : Int) (rnd : Rand) (retCnt : Int) (t : BodyNode)
      (rnd' : Rand) (retCnt' : Int), maxDepth ≤ n →
      rndTreeStmtBlock cfg maxDepth indent rnd retCnt = some (t, rnd', retCnt') →
      t.depth ≤ maxDepth.toNat := by
  intro n
  induction n with
  | zero =>
    intro maxDepth indent rnd retCnt t rnd' retCnt' hn h
    rcases rndTreeStmtBlock_inv h with ⟨ht, -⟩ | ⟨hd, -⟩
    · subst ht
      simp [BodyNode.depth]
    · simp at hn; omega
  | succ n ih =>
    intro maxDepth indent rnd retCnt t rnd' retCnt' hn h
    rcases rndTreeStmtBlock_inv h with
      ⟨ht, -⟩ | ⟨hd, -, -, cond, r1, th, r2, c2, el, -, hth, hel, ht⟩
    · subst ht
      simp [BodyNode.depth]
    · have hn1 : maxDepth - 1 ≤ (n : Int) := by push_cast at hn; omega
      have h1 := ih _ _ _ _ _ _ _ hn1 hth
      have h2 := ih _ _ _ _ _ _ _ hn1 hel
      subst ht
      simp only [BodyNode.depth]
      have := max_le h1 h2
      omega

theorem le_toNat_cast (z : Int) : z ≤ ((z.toNat : Nat) : Int) := Int.self_le_toNat z

theorem leaves_length (t : BodyNode) : t.leaves.length = t.leafCount := by
  induction t with
  | leaf _ _ _ => rfl
  | branch _ _ th el ih1 ih2 => simp [BodyNode.leaves, BodyNode.leafCount, ih1, ih2]

/-! ## The condition synthesizer: claims -/

/-- C4 (constant bounding): for every draw and every `maxConst`, `rndConst`
returns a constant `c` with `0 ≤ c ≤ maxConst` (`c` is a natural number), and
every constant of every condition `rndCond` returns is at most `maxConst`. -/
theorem rndConst_in_range (rnd : Rand) (maxConst : Nat) :
    (∃ c rnd', rndConst rnd maxConst = some (c, rnd') ∧ 0 ≤ c ∧ c ≤ maxConst) ∧
    ∀ (r : Rand) (numFuncParams : Int) (additionalInputs : List String) (cond : Cond)
      (rnd' : Rand), rndCond r numFuncParams maxConst additionalInputs = some (cond, rnd') →
      ∀ c ∈ cond.consts, 0 ≤ c ∧ c ≤ maxConst :=
  ⟨⟨_, _, rndConst_eq rnd maxConst, Nat.zero_le _, rndConst_bound (rndConst_eq rnd maxConst)⟩,
    fun _ _ _ _ _ h c hc => ⟨Nat.zero_le c, rndCond_consts h c hc⟩⟩

theorem rndConst_in_range_witness :
    ∀ c ∈ (Cond.mk (Operand.param 0) "<=" (RightExpr.constPlusInput 5 (Operand.param 0))).consts,
      0 ≤ c ∧ c ≤ 64 :=
  (rndConst_in_range twoHundreds 64).2 twoHundreds 8 [] _ ⟨fun _ => 200, 5⟩ rfl

/-- C5 (constant reduction): with `c` the 64-bit draw, `rndConst` returns `c`
unchanged when `c ≤ maxConst` and `c mod (maxConst + 1)` when `c > maxConst`. -/
theorem rndConst_reduction (rnd : Rand) (maxConst : Nat) :
    (rnd.Uint64.1 ≤ maxConst →
      rndConst rnd maxConst = some (rnd.Uint64.1, rnd.advance)) ∧
    (maxConst < rnd.Uint64.1 →
      rndConst rnd maxConst = some (rnd.Uint64.1 % (maxConst + 1), rnd.advance)) := by
  constructor
  · intro h
    rw [rndConst_eq, if_neg (not_lt.mpr h)]
  · intro h
    rw [rndConst_eq, if_pos h]

theorem rndConst_reduction_witness :
    rndConst twos 64 = some (2, twos.advance) ∧
    rndConst twoHundreds 64 = some (5, twoHundreds.advance) :=
  ⟨(rndConst_reduction twos 64).1 (by decide),
    (rndConst_reduction twoHundreds 64).2 (by decide)⟩

/-! ## Tree mode: claims -/

/-- C6 (depth bound, tree mode): when `rndTreeStmtBlock(maxDepth, indent)`
returns a tree, for `maxDepth ≥ 0` no leaf lies under more than `maxDepth`
nested conditionals, and for `maxDepth < 1` the tree is a single leaf; with a
non-negative indentation, at least one operand to choose from and a number of
operands below `2^63`, so that the `int` sum does not wrap, it does return a
tree. -/
theorem tree_depth_bound (cfg : StatelessConfig) (maxDepth indent : Int) (rnd : Rand)
    (retCnt : Int) :
    (∀ (t : BodyNode) (rnd' : Rand) (retCnt' : Int),
      rndTreeStmtBlock cfg maxDepth indent rnd retCnt = some (t, rnd', retCnt') →
      (0 ≤ maxDepth → (t.depth : Int) ≤ maxDepth) ∧
      (maxDepth < 1 → t = BodyNode.leaf indent retCnt retCnt)) ∧
    (0 ≤ indent → 0 < cfg.numFuncParams + cfg.additionalInputs.length →
      cfg.numFuncParams + cfg.additionalInputs.length < 2 ^ 63 →
      ∃ r, rndTreeStmtBlock cfg maxDepth indent rnd retCnt = some r) := by
  constructor
  · intro t rnd' retCnt' h
    constructor
    · intro h0
      have hd := rndTreeStmtBlock_depth cfg maxDepth.toNat maxDepth indent rnd retCnt t rnd'
        retCnt' (le_toNat_cast _) h
      have : ((maxDepth.toNat : Nat) : Int) = maxDepth := Int.toNat_of_nonneg h0
      omega
    · intro h1
      rcases rndTreeStmtBlock_inv h with ⟨ht, -⟩ | ⟨hd, -⟩
      · exact ht
      · omega
  · intro hi hpos hfit
    exact rndTreeStmtBlock_total cfg ⟨hpos, hfit⟩ maxDepth.toNat maxDepth indent rnd retCnt
      (le_toNat_cast _) hi

theorem tree_depth_bound_witness :
    ∃ t rnd' retCnt', rndTreeStmtBlock StatelessConfig.default 8 3 halfThenZeros 0
        = some (t, rnd', retCnt') ∧ (t.depth : Int) ≤ 8 := by
  obtain ⟨⟨t, rnd', retCnt'⟩, h⟩ :=
    (tree_depth_bound StatelessConfig.default 8 3 halfThenZeros 0).2
      (by decide) (by decide) (by decide)
  exact ⟨t, rnd', retCnt', h,
    ((tree_depth_bound StatelessConfig.default 8 3 halfThenZeros 0).1 t rnd' retCnt' h).1
      (by decide)⟩

/-- C9 as the code has it (tree terminal rule): a call of `rndTreeStmtBlock`
with `maxDepth < 1`, or whose fresh draw is below `retProb`, returns a leaf
whose marker is the current counter value, advances the counter by one, and
prints an always-failing assertion tagged with that value followed by a
`return` of the same value (not of `0`); in every tree built, each leaf returns
its own marker value. -/
theorem tree_terminal_rule (cfg : StatelessConfig) (maxDepth indent : Int) (rnd : Rand)
    (retCnt : Int) (hi : 0 ≤ indent) :
    (maxDepth < 1 →
      rndTreeStmtBlock cfg maxDepth indent rnd retCnt
        = some (BodyNode.leaf indent retCnt retCnt, rnd, retCnt + 1)) ∧
    (1 ≤ maxDepth → rnd.Float64.1 < cfg.retProb →
      rndTreeStmtBlock cfg maxDepth indent rnd retCnt
        = some (BodyNode.leaf indent retCnt retCnt, rnd.advance, retCnt + 1)) ∧
    (BodyNode.leaf indent retCnt retCnt).render
      = spaces indent ++ "emit AssertionFailed(\"" ++ toString retCnt
          ++ "\"); assert(false); return " ++ toString retCnt ++ ";" ∧
    (∀ (t : BodyNode) (rnd' : Rand) (retCnt' : Int),
      rndTreeStmtBlock cfg maxDepth indent rnd retCnt = some (t, rnd', retCnt') →
      ∀ p ∈ t.leaves, p.2 = p.1) := by
  refine ⟨?_, ?_, rfl, ?_⟩
  · intro hd
    rw [rndTreeStmtBlock, if_pos hd, treeLeaf_eq rnd retCnt hi]
  · intro hd hp
    rw [rndTreeStmtBlock, if_neg (not_lt.mpr hd)]
    dsimp only
    rw [if_pos hp, treeLeaf_eq _ retCnt hi]
    rfl
  · intro t rnd' retCnt' h p hp
    obtain ⟨hl, -⟩ :=
      rndTreeStmtBlock_leaves cfg maxDepth.toNat maxDepth indent rnd retCnt t rnd' retCnt'
        (le_toNat_cast _) h
    rw [hl, List.mem_map] at hp
    obtain ⟨k, -, hk⟩ := hp
    rw [← hk]

theorem tree_terminal_rule_witness :
    rndTreeStmtBlock StatelessConfig.default 0 3 zeros 7
        = some (BodyNode.leaf 3 7 7, zeros, 8) ∧
    rndTreeStmtBlock StatelessConfig.default 8 3 zeros 7
        = some (BodyNode.leaf 3 7 7, zeros.advance, 8) :=
  ⟨(tree_terminal_rule StatelessConfig.default 0 3 zeros 7 (by decide)).1 (by decide),
    (tree_terminal_rule StatelessConfig.default 8 3 zeros 7 (by decide)).2.1 (by decide)
      (by decide!)⟩

/-- C9 as stated fails: with the shipped configuration and a stream whose first
draw is `0.5` and whose other draws are `0`, the tree is one branch over the
leaves `0` and `1`, and the second leaf returns `1`, not `0`. -/
theorem tree_return_zero_counterexample :
    ¬ (∀ (t : BodyNode) (rnd' : Rand) (retCnt' : Int),
        statelessBody StatelessConfig.default halfThenZeros = some (t, rnd', retCnt') →
        ∀ p ∈ t.leaves, p.2 = 0) := by
  intro hall
  have hev : (statelessBody StatelessConfig.default halfThenZeros).map (fun r => r.1.leaves)
      = some [(0, 0), (1, 1)] := by decide!
  obtain ⟨⟨t, rnd', retCnt'⟩, hrun, hleaves⟩ := Option.map_eq_some'.mp hev
  have h1 := hall t rnd' retCnt' hrun (1, 1) (by rw [hleaves]; simp)
  exact absurd h1 (by decide)

/-! ## Maze mode: lemmas -/

/-- A chain built at depth `depth` carries `rv` and has `depth` guards (none
for a depth below one). -/
theorem rndLinearStmtBlock_spec (cfg : StatefulConfig) :
    ∀ (n : Nat) (depth indent rv : Int) (rnd : Rand) (c : Chain) (rnd' : Rand),
      depth ≤ n → rndLinearStmtBlock cfg depth indent rv rnd = some (c, rnd') →
      c.marker = rv ∧ c.depth = depth.toNat := by
  intro n
  induction n with
  | zero =>
    intro depth indent rv rnd c rnd' hn h
    rw [rndLinearStmtBlock, if_pos (by simp at hn; omega)] at h
    split at h
    · cases h
    · cases h
      refine ⟨rfl, ?_⟩
      simp at hn
      simp [Chain.depth]
      omega
  | succ n ih =>
    intro depth indent rv rnd c rnd' hn h
    rw [rndLinearStmtBlock] at h
    by_cases hd : depth < 1
    · rw [if_pos hd] at h
      split at h
      · cases h
      · cases h
        refine ⟨rfl, ?_⟩
        simp [Chain.depth]
        omega
    · rw [if_neg hd] at h
      split at h
      · cases h
      · split at h
        · cases h
        · split at h
          · cases h
          · rename_i th r2 hth
            cases h
            have hn1 : depth - 1 ≤ (n : Int) := by push_cast at hn; omega
            obtain ⟨hm, hdep⟩ := ih _ _ _ _ _ _ hn1 hth
            refine ⟨hm, ?_⟩
            simp only [Chain.depth, hdep]
            omega

/-- With at least one operand to choose from, a number of operands that fits
an `int` and a non-negative indentation, `rndLinearStmtBlock` returns a
chain. -/
theorem rndLinearStmtBlock_total (cfg : StatefulConfig)
    (hin : 0 < cfg.numFuncParams + cfg.additionalInputs.length ∧
      cfg.numFuncParams + cfg.additionalInputs.length < 2 ^ 63) :
    ∀ (n : Nat) (depth indent rv : Int) (rnd : Rand), depth ≤ n → 0 ≤ indent →
      ∃ r, rndLinearStmtBlock cfg depth indent rv rnd = some r := by
  intro n
  induction n with
  | zero =>
    intro depth indent rv rnd hn hi
    obtain ⟨s, hs⟩ := indentStr_isSome hi
    rw [rndLinearStmtBlock, if_pos (by simp at hn; omega), hs]
    exact ⟨_, rfl⟩
  | succ n ih =>
    intro depth indent rv rnd hn hi
    obtain ⟨s, hs⟩ := indentStr_isSome hi
    rw [rndLinearStmtBlock]
    by_cases hd : depth < 1
    · rw [if_pos hd, hs]
      exact ⟨_, rfl⟩
    · rw [if_neg hd, hs]
      dsimp only
      obtain ⟨⟨cond, r1⟩, hc⟩ := rndCond_total rnd cfg.maxConst hin
      rw [hc]
      dsimp only
      have hn1 : depth - 1 ≤ (n : Int) := by push_cast at hn; omega
      obtain ⟨⟨th, r2⟩, hth⟩ := ih (depth - 1) (indent + 1) rv r1 hn1 (by omega)
      rw [hth]
      exact ⟨_, rfl⟩

/-- One run of the loop body appends one cell for `(i, j)` with the current
counter value and advances the counter by one. -/
theorem mazeCell_spec {cfg : StatefulConfig} {i j : Int} {st st' : MazeState}
    (h : mazeCell cfg i j st = some st') :
    ∃ cell, st'.body = st.body ++ [cell] ∧ st'.retCnt = st.retCnt + 1 ∧
      cell.key = (i, j, st.retCnt) ∧ CellOK cfg cell := by
  unfold mazeCell at h
  dsimp only at h
  by_cases hij : 0 < i ∨ 0 < j
  · rw [if_pos hij] at h
    split at h
    · cases h
    · rename_i d rnd1 hd
      obtain ⟨hd0, hd1⟩ := intn_range hd
      by_cases hmin : cfg.minDepth ≤ d
      · rw [if_pos hmin] at h
        split at h
        · cases h
        · rename_i ch rnd2 hch
          cases h
          obtain ⟨hm, hdep⟩ := rndLinearStmtBlock_spec cfg d.toNat d 4 st.retCnt rnd1 ch rnd2
            (le_toNat_cast _) hch
          refine ⟨_, rfl, rfl, rfl, ?_, ?_, ?_⟩
          · intro hb; cases hb
          · intro hb; cases hb
          · intro ch' hb
            cases hb
            have : ((d.toNat : Nat) : Int) = d := Int.toNat_of_nonneg hd0
            exact ⟨hij, hm, by omega, by omega⟩
      · rw [if_neg hmin] at h
        cases h
        refine ⟨_, rfl, rfl, rfl, ?_, ?_, ?_⟩
        · intro hb; cases hb
        · intro _; exact hij
        · intro ch' hb; cases hb
  · rw [if_neg hij] at h
    cases h
    refine ⟨_, rfl, rfl, rfl, ?_, ?_, ?_⟩
    · intro _; exact hij
    · intro hb; cases hb
    · intro ch' hb; cases hb

/-- With `0 ≤ maxDepth`, `maxDepth + 1` and the number of operands within the
range of `int`, and at least one operand to choose from, the loop body does
not panic. -/
theorem mazeCell_total (cfg : StatefulConfig)
    (h0 : 0 ≤ cfg.maxDepth ∧ cfg.maxDepth < 2 ^ 63 - 1)
    (hin : 0 < cfg.numFuncParams + cfg.additionalInputs.length ∧
      cfg.numFuncParams + cfg.additionalInputs.length < 2 ^ 63) (i j : Int)
    (st : MazeState) : ∃ st', mazeCell cfg i j st = some st' := by
  unfold mazeCell
  dsimp only
  by_cases hij : 0 < i ∨ 0 < j
  · rw [if_pos hij, wrapInt_eq (by omega) (by omega), intn_eq (by omega)]
    dsimp only
    split_ifs
    · obtain ⟨⟨ch, r2⟩, hch⟩ := rndLinearStmtBlock_total cfg hin
        ((st.rnd.raw : Int) % (cfg.maxDepth + 1)).toNat _ 4 st.retCnt st.rnd.advance
        (le_toNat_cast _) (by norm_num)
      rw [hch]
      exact ⟨_, rfl⟩
    · exact ⟨_, rfl⟩
  · rw [if_neg hij]
    exact ⟨_, rfl⟩

/-- The invariant rule for `forLoop`. -/
theorem forLoop_inv {σ : Type} (body : Int → σ → Option σ) (I : Nat → σ → Prop) :
    ∀ (n : Nat) (s s' : σ), I 0 s →
      (∀ (k : Nat) (t t' : σ), k < n → I k t → body (k : Int) t = some t' → I (k + 1) t') →
      forLoop body n s = some s' → I n s' := by
  intro n
  induction n with
  | zero =>
    intro s s' h0 _ h
    simp only [forLoop, Option.some.injEq] at h
    rw [← h]
    exact h0
  | succ n ih =>
    intro s s' h0 hstep h
    simp only [forLoop] at h
    split at h
    · cases h
    · rename_i t ht
      have hI := ih s t h0 (fun k a b hk => hstep k a b (Nat.lt_succ_of_lt hk)) ht
      exact hstep n t s' (Nat.lt_succ_self n) hI h

/-- A loop whose body never panics does not panic. -/
theorem forLoop_total {σ : Type} (body : Int → σ → Option σ)
    (hbody : ∀ (k : Int) (t : σ), ∃ t', body k t = some t') :
    ∀ (n : Nat) (s : σ), ∃ s', forLoop body n s = some s' := by
  intro n
  induction n with
  | zero => intro s; exact ⟨s, rfl⟩
  | succ n ih =>
    intro s
    obtain ⟨t, ht⟩ := ih s
    obtain ⟨t', ht'⟩ := hbody (n : Int) t
    exact ⟨t', by simp only [forLoop, ht, ht']⟩

/-- One run of the inner loop appends the cells `(i, 0), ..., (i, dimY - 1)`
with consecutive counter values. -/
theorem mazeRow_spec {cfg : StatefulConfig} {i : Int} {st st' : MazeState}
    (h : mazeRow cfg i st = some st') :
    ∃ cells, st'.body = st.body ++ cells ∧ st'.retCnt = st.retCnt + cfg.dimY.toNat ∧
      cells.map Cell.key
        = (List.range cfg.dimY.toNat).map (fun (j : Nat) => (i, (j : Int), st.retCnt + j)) ∧
      ∀ c ∈ cells, CellOK cfg c := by
  unfold mazeRow at h
  refine forLoop_inv (fun j t => mazeCell cfg i j t)
    (fun k t => ∃ cells, t.body = st.body ++ cells ∧ t.retCnt = st.retCnt + k ∧
      cells.map Cell.key
        = (List.range k).map (fun (j : Nat) => (i, (j : Int), st.retCnt + j)) ∧
      ∀ c ∈ cells, CellOK cfg c)
    cfg.dimY.toNat st st' ⟨[], by simp, by simp, by simp, by simp⟩ ?_ h
  intro k t t' _ hI hbody
  obtain ⟨cells, hb, hc, hk, hok⟩ := hI
  obtain ⟨cell, hb', hc', hkey, hcell⟩ := mazeCell_spec hbody
  refine ⟨cells ++ [cell], ?_, ?_, ?_, ?_⟩
  · rw [hb', hb, List.append_assoc]
  · rw [hc', hc]; push_cast; ring
  · rw [List.map_append, hk, List.range_succ, List.map_append, List.map_singleton,
      List.map_singleton, hkey, hc]
  · intro c hcm
    rcases List.mem_append.mp hcm with hcm | hcm
    · exact hok c hcm
    · rw [List.mem_singleton] at hcm
      rw [hcm]
      exact hcell

theorem gridKeys_succ (X Y : Nat) :
    gridKeys (X + 1) Y
      = gridKeys X Y
        ++ (List.range Y).map (fun (j : Nat) => ((X : Int), (j : Int), (X : Int) * Y + j)) := by
  unfold gridKeys
  rw [List.range_succ, List.flatMap_append]
  simp

/-- The loops write the cells of the grid in row-major order, each with its
row-major index as `rv`, and leave the counter at the number of cells. -/
theorem mazeBody_spec {cfg : StatefulConfig} {rnd : Rand} {st : MazeState}
    (h : mazeBody cfg rnd = some st) :
    st.retCnt = (cfg.dimX.toNat : Int) * cfg.dimY.toNat ∧
      st.body.map Cell.key = gridKeys cfg.dimX.toNat cfg.dimY.toNat ∧
      ∀ c ∈ st.body, CellOK cfg c := by
  unfold mazeBody at h
  refine forLoop_inv (fun i t => mazeRow cfg i t)
    (fun m t => t.retCnt = (m : Int) * cfg.dimY.toNat ∧
      t.body.map Cell.key = gridKeys m cfg.dimY.toNat ∧ ∀ c ∈ t.body, CellOK cfg c)
    cfg.dimX.toNat ⟨rnd, 0, []⟩ st ⟨by simp, by simp [gridKeys], by simp⟩ ?_ h
  intro m t t' _ hI hrow
  obtain ⟨hc, hk, hok⟩ := hI
  obtain ⟨cells, hb', hc', hkeys, hcells⟩ := mazeRow_spec hrow
  refine ⟨?_, ?_, ?_⟩
  · rw [hc', hc]; push_cast; ring
  · rw [hb', List.map_append, hk, hkeys, gridKeys_succ, hc]
  · intro c hcm
    rw [hb'] at hcm
    rcases List.mem_append.mp hcm with hcm | hcm
    · exact hok c hcm
    · exact hcells c hcm

/-- With `0 ≤ maxDepth`, `maxDepth + 1` and the number of operands within the
range of `int`, and at least one operand to choose from, the loops do not
panic. -/
theorem mazeBody_total (cfg : StatefulConfig) (rnd : Rand)
    (h0 : 0 ≤ cfg.maxDepth ∧ cfg.maxDepth < 2 ^ 63 - 1)
    (hin : 0 < cfg.numFuncParams + cfg.additionalInputs.length ∧
      cfg.numFuncParams + cfg.additionalInputs.length < 2 ^ 63) :
    ∃ st, mazeBody cfg rnd = some st := by
  unfold mazeBody
  apply forLoop_total
  intro i t
  unfold mazeRow
  apply forLoop_total
  intro j t2
  exact mazeCell_total cfg h0 hin i j t2

theorem gridKeys_rv (X Y : Nat) :
    (gridKeys X Y).map (fun k => k.2.2) = (List.range (X * Y)).map (fun (k : Nat) => (k : Int)) := by
  induction X with
  | zero => simp [gridKeys]
  | succ X ih =>
    rw [gridKeys_succ, List.map_append, ih, Nat.succ_mul, List.range_add, List.map_append,
      List.map_map, List.map_map]
    congr 1

/-- The `rv` values of the cells are `0, 1, ..., dimX * dimY - 1` in textual
order. -/
theorem mazeBody_rv {cfg : StatefulConfig} {rnd : Rand} {st : MazeState}
    (h : mazeBody cfg rnd = some st) :
    st.body.map (fun c => c.rv)
      = (List.range (cfg.dimX.toNat * cfg.dimY.toNat)).map (fun (k : Nat) => (k : Int)) := by
  obtain ⟨-, hk, -⟩ := mazeBody_spec h
  rw [← gridKeys_rv, ← hk, List.map_map]
  rfl

/-- C10 evaluated where it fails: with `dimX = 3` and `dimY = 5` the template
of `moveEast` prints the placeholder `DimX` in `require(nx < DimX)`, the
generator has set that placeholder to `dimY = 5`, and `moveNorth` prints `5`
as well; the cells are generated for `x` in `[0, 3)`, so `moveEast` admits
`x = 3`, for which the body has no guard. -/
theorem moveEast_bound_at_three_by_five :
    TemplatePart.DimX ∈ moveEast ∧ TemplatePart.DimY ∈ moveNorth ∧ threeByFive.dimX = 3 ∧
    (mazeBody threeByFive twos).map (fun st =>
        (TemplatePart.DimX.execute (statefulPlaceholders threeByFive st),
         TemplatePart.DimY.execute (statefulPlaceholders threeByFive st),
         (cellGuards st.body).count (2, 0), (cellGuards st.body).count (3, 0)))
      = some ("5", "5", 1, 0) := by
  refine ⟨by decide, by decide, rfl, by decide!⟩

/-! ## Tree mode: reachability -/

theorem paths_markerIds (t : BodyNode) : t.paths.map Prod.snd = t.markerIds := by
  unfold BodyNode.markerIds
  induction t with
  | leaf _ _ _ => rfl
  | branch _ _ th el ih1 ih2 =>
    simp only [BodyNode.paths, BodyNode.leaves, List.map_append, List.map_map]
    rw [← ih1, ← ih2]
    rfl

theorem follow_mem_paths (outcomes : Nat → Bool) (t : BodyNode) :
    ∀ k, t.follow outcomes k ∈ t.paths ∧ agreesWith outcomes (t.follow outcomes k).1 k := by
  induction t with
  | leaf _ _ _ =>
    intro k
    simp [BodyNode.follow, BodyNode.paths, agreesWith]
  | branch _ _ th el ih1 ih2 =>
    intro k
    by_cases h : outcomes k = true
    · obtain ⟨hm, ha⟩ := ih1 (k + 1)
      simp only [BodyNode.follow, h, if_true, BodyNode.paths, List.mem_append, List.mem_map,
        agreesWith]
      exact ⟨Or.inl ⟨_, hm, rfl⟩, trivial, ha⟩
    · have hf : outcomes k = false := by simpa using h
      obtain ⟨hm, ha⟩ := ih2 (k + 1)
      simp only [BodyNode.follow, hf, BodyNode.paths, List.mem_append, List.mem_map,
        agreesWith]
      exact ⟨Or.inr ⟨_, hm, rfl⟩, by simp, ha⟩

theorem follow_unique (outcomes : Nat → Bool) (t : BodyNode) :
    ∀ k, ∀ q ∈ t.paths, agreesWith outcomes q.1 k → q = t.follow outcomes k := by
  induction t with
  | leaf _ _ _ =>
    intro k q hq _
    simpa [BodyNode.paths, BodyNode.follow] using hq
  | branch _ _ th el ih1 ih2 =>
    intro k q hq ha
    simp only [BodyNode.paths, List.mem_append, List.mem_map] at hq
    rcases hq with ⟨q', hq', rfl⟩ | ⟨q', hq', rfl⟩
    · simp only [agreesWith] at ha
      have := ih1 (k + 1) q' hq' ha.2
      simp only [BodyNode.follow, ← ha.1, if_true, ← this]
    · simp only [agreesWith] at ha
      have := ih2 (k + 1) q' hq' ha.2
      have hf : outcomes k = false := ha.1.symm
      simp [BodyNode.follow, hf, ← this]

theorem follow_length_le_depth (outcomes : Nat → Bool) (t : BodyNode) :
    ∀ k, (t.follow outcomes k).1.length ≤ t.depth := by
  induction t with
  | leaf _ _ _ =>
    intro k
    simp [BodyNode.follow, BodyNode.depth]
  | branch _ _ th el ih1 ih2 =>
    intro k
    have h1 := ih1 (k + 1)
    have h2 := ih2 (k + 1)
    have hm1 := le_max_left th.depth el.depth
    have hm2 := le_max_right th.depth el.depth
    by_cases h : outcomes k = true
    · simp only [BodyNode.follow, h, if_true, List.length_cons, BodyNode.depth]
      omega
    · have hf : outcomes k = false := by simpa using h
      simp only [BodyNode.follow, hf, List.length_cons, BodyNode.depth]
      simp only [Bool.false_eq_true, if_false, List.length_cons]
      omega

theorem paths_nodup (t : BodyNode) : (t.paths.map Prod.fst).Nodup := by
  induction t with
  | leaf _ _ _ => simp [BodyNode.paths]
  | branch _ _ th el ih1 ih2 =>
    simp only [BodyNode.paths, List.map_append, List.map_map]
    rw [List.nodup_append]
    refine ⟨?_, ?_, ?_⟩
    · have : (List.map (Prod.fst ∘ fun q : List Bool × Int => (true :: q.1, q.2)) th.paths)
          = (th.paths.map Prod.fst).map (fun p => true :: p) := by
        rw [List.map_map]; rfl
      rw [this]
      exact ih1.map (fun a b h => by simpa using h)
    · have : (List.map (Prod.fst ∘ fun q : List Bool × Int => (false :: q.1, q.2)) el.paths)
          = (el.paths.map Prod.fst).map (fun p => false :: p) := by
        rw [List.map_map]; rfl
      rw [this]
      exact ih2.map (fun a b h => by simpa using h)
    · intro p h1 h2
      simp only [List.mem_map, Function.comp_apply] at h1 h2
      obtain ⟨a, -, rfl⟩ := h1
      obtain ⟨b, -, hb⟩ := h2
      simp at hb

theorem rndTreeStmtBlock_ids_nodup {cfg : StatelessConfig} {maxDepth indent retCnt retCnt' : Int}
    {rnd rnd' : Rand} {t : BodyNode}
    (h : rndTreeStmtBlock cfg maxDepth indent rnd retCnt = some (t, rnd', retCnt')) :
    t.markerIds.Nodup := by
  obtain ⟨hl, -⟩ := rndTreeStmtBlock_leaves cfg maxDepth.toNat maxDepth indent rnd retCnt t rnd'
    retCnt' (le_toNat_cast _) h
  unfold BodyNode.markerIds
  rw [hl, List.map_map]
  refine (List.nodup_range _).map ?_
  intro a b hab
  simp only [Function.comp_apply] at hab
  omega

/-- C11 (reachability, tree mode): when `rndTreeStmtBlock` returns a tree,
(1) if it is a branch, its then-block and its else-block are the results of two
calls at depth `maxDepth - 1` and indentation `indent + 1`; (2) for every
sequence of branch outcomes the run from the root ends at one leaf of the tree,
and that is the only leaf whose path agrees with the outcomes; (3) the leaves
and the paths correspond one to one: two leaves on the same path are the same
leaf, no marker value occurs on two paths, and the marker values are pairwise
distinct; and no run passes more than `maxDepth` conditions.  With a
non-negative indentation, at least one operand to choose from and a
number of operands below `2^63`, so that the `int` sum does not wrap, the tree
is returned. -/
theorem tree_reachability (cfg : StatelessConfig) (maxDepth indent : Int) (rnd : Rand)
    (retCnt : Int) :
    (∀ (t : BodyNode) (rnd' : Rand) (retCnt' : Int),
      rndTreeStmtBlock cfg maxDepth indent rnd retCnt = some (t, rnd', retCnt') →
      (∀ ind cond th el, t = BodyNode.branch ind cond th el →
        ∃ r1 r2 c2,
          rndTreeStmtBlock cfg (maxDepth - 1) (indent + 1) r1 retCnt = some (th, r2, c2) ∧
          rndTreeStmtBlock cfg (maxDepth - 1) (indent + 1) r2 c2 = some (el, rnd', retCnt')) ∧
      (∀ outcomes : Nat → Bool,
        t.follow outcomes 0 ∈ t.paths ∧ agreesWith outcomes (t.follow outcomes 0).1 0 ∧
        (t.follow outcomes 0).1.length ≤ maxDepth.toNat ∧
        ∀ q ∈ t.paths, agreesWith outcomes q.1 0 → q = t.follow outcomes 0) ∧
      t.paths.map Prod.snd = t.markerIds ∧ t.markerIds.Nodup ∧
      (∀ q1 ∈ t.paths, ∀ q2 ∈ t.paths, q1.1 = q2.1 → q1 = q2) ∧
      (∀ q1 ∈ t.paths, ∀ q2 ∈ t.paths, q1.2 = q2.2 → q1 = q2)) ∧
    (0 ≤ indent → 0 < cfg.numFuncParams + cfg.additionalInputs.length →
      cfg.numFuncParams + cfg.additionalInputs.length < 2 ^ 63 →
      ∃ r, rndTreeStmtBlock cfg maxDepth indent rnd retCnt = some r) := by
  constructor
  · intro t rnd' retCnt' h
    have hids := rndTreeStmtBlock_ids_nodup h
    have hdepth := rndTreeStmtBlock_depth cfg maxDepth.toNat maxDepth indent rnd retCnt t rnd'
      retCnt' (le_toNat_cast _) h
    refine ⟨?_, ?_, paths_markerIds t, hids, ?_, ?_⟩
    · intro ind cond th el ht
      rcases rndTreeStmtBlock_inv h with
        ⟨hl, -⟩ | ⟨-, -, -, cond', r1, th', r2, c2, el', -, hth, hel, hb⟩
      · rw [hl] at ht
        cases ht
      · rw [hb] at ht
        cases ht
        exact ⟨r1, r2, c2, hth, hel⟩
    · intro outcomes
      exact ⟨(follow_mem_paths outcomes t 0).1, (follow_mem_paths outcomes t 0).2,
        le_trans (follow_length_le_depth outcomes t 0) hdepth, follow_unique outcomes t 0⟩
    · intro q1 h1 q2 h2 heq
      exact List.inj_on_of_nodup_map (paths_nodup t) h1 h2 heq
    · intro q1 h1 q2 h2 heq
      have hnd : (t.paths.map Prod.snd).Nodup := by rw [paths_markerIds]; exact hids
      exact List.inj_on_of_nodup_map hnd h1 h2 heq
  · intro hi hpos hfit
    exact rndTreeStmtBlock_total cfg ⟨hpos, hfit⟩ maxDepth.toNat maxDepth indent rnd retCnt
      (le_toNat_cast _) hi

theorem tree_reachability_witness :
    ∃ t rnd' retCnt', rndTreeStmtBlock StatelessConfig.default 8 3 halfThenZeros 0
        = some (t, rnd', retCnt') ∧
      t.follow (fun _ => false) 0 ∈ t.paths ∧ t.markerIds.Nodup := by
  obtain ⟨⟨t, rnd', retCnt'⟩, h⟩ :=
    (tree_reachability StatelessConfig.default 8 3 halfThenZeros 0).2
      (by decide) (by decide) (by decide)
  obtain ⟨-, h2, -, h4, -⟩ :=
    (tree_reachability StatelessConfig.default 8 3 halfThenZeros 0).1 t rnd' retCnt' h
  exact ⟨t, rnd', retCnt', h, (h2 (fun _ => false)).1, h4⟩

/-! ## Tree mode: size -/

theorem leafCount_eq_branches_succ (t : BodyNode) : t.leafCount = t.branches + 1 := by
  induction t with
  | leaf _ _ _ => rfl
  | branch _ _ th el ih1 ih2 =>
    simp only [BodyNode.leafCount, BodyNode.branches, ih1, ih2]
    omega

theorem leafCount_le_two_pow_depth (t : BodyNode) : t.leafCount ≤ 2 ^ t.depth := by
  induction t with
  | leaf _ _ _ => simp [BodyNode.leafCount, BodyNode.depth]
  | branch _ _ th el ih1 ih2 =>
    simp only [BodyNode.leafCount, BodyNode.depth]
    have h1 : 2 ^ th.depth ≤ 2 ^ max th.depth el.depth :=
      Nat.pow_le_pow_right (by norm_num) (le_max_left _ _)
    have h2 : 2 ^ el.depth ≤ 2 ^ max th.depth el.depth :=
      Nat.pow_le_pow_right (by norm_num) (le_max_right _ _)
    rw [pow_succ]
    omega

/-- C20 (tree size bounds): when `rndTreeStmtBlock(maxDepth, indent)` returns a
tree, the tree has one leaf more than it has branches, at least one leaf, and
for `maxDepth ≥ 0` at most `2^maxDepth` leaves; a call with `maxDepth < 1`
returns a leaf and leaves the generator as it was, so it draws nothing; and
the call returns for every depth and stream (non-negative indentation, at least
one operand to choose from, a number of operands below `2^63` so that the `int`
sum does not wrap), the recursion being on `maxDepth - 1`. -/
theorem tree_size_bounds (cfg : StatelessConfig) (maxDepth indent : Int) (rnd : Rand)
    (retCnt : Int) :
    (∀ (t : BodyNode) (rnd' : Rand) (retCnt' : Int),
      rndTreeStmtBlock cfg maxDepth indent rnd retCnt = some (t, rnd', retCnt') →
      t.leafCount = t.branches + 1 ∧ 1 ≤ t.leafCount ∧
      (0 ≤ maxDepth → t.leafCount ≤ 2 ^ maxDepth.toNat) ∧
      (maxDepth < 1 → t = BodyNode.leaf indent retCnt retCnt ∧ rnd' = rnd) ∧
      (∀ ind cond th el, t = BodyNode.branch ind cond th el →
        ∃ r1 r2 c2,
          rndTreeStmtBlock cfg (maxDepth - 1) (indent + 1) r1 retCnt = some (th, r2, c2) ∧
          rndTreeStmtBlock cfg (maxDepth - 1) (indent + 1) r2 c2 = some (el, rnd', retCnt'))) ∧
    (0 ≤ indent → 0 < cfg.numFuncParams + cfg.additionalInputs.length →
      cfg.numFuncParams + cfg.additionalInputs.length < 2 ^ 63 →
      ∃ r, rndTreeStmtBlock cfg maxDepth indent rnd retCnt = some r) := by
  constructor
  · intro t rnd' retCnt' h
    have hb := leafCount_eq_branches_succ t
    refine ⟨hb, by omega, ?_, ?_, ?_⟩
    · intro _
      have hd := rndTreeStmtBlock_depth cfg maxDepth.toNat maxDepth indent rnd retCnt t rnd'
        retCnt' (le_toNat_cast _) h
      exact le_trans (leafCount_le_two_pow_depth t) (Nat.pow_le_pow_right (by norm_num) hd)
    · intro hlt
      rcases rndTreeStmtBlock_inv h with ⟨ht, -, -, ⟨-, hr⟩ | ⟨hd, -⟩⟩ | ⟨hd, -⟩
      · exact ⟨ht, hr⟩
      · omega
      · omega
    · intro ind cond th el ht
      rcases rndTreeStmtBlock_inv h with
        ⟨hl, -⟩ | ⟨-, -, -, cond', r1, th', r2, c2, el', -, hth, hel, hbr⟩
      · rw [hl] at ht
        cases ht
      · rw [hbr] at ht
        cases ht
        exact ⟨r1, r2, c2, hth, hel⟩
  · intro hi hpos hfit
    exact rndTreeStmtBlock_total cfg ⟨hpos, hfit⟩ maxDepth.toNat maxDepth indent rnd retCnt
      (le_toNat_cast _) hi

theorem tree_size_bounds_witness :
    ∃ t rnd' retCnt', rndTreeStmtBlock StatelessConfig.default 8 3 halfThenZeros 0
        = some (t, rnd', retCnt') ∧
      t.leafCount = t.branches + 1 ∧ t.leafCount ≤ 256 := by
  obtain ⟨⟨t, rnd', retCnt'⟩, h⟩ :=
    (tree_size_bounds StatelessConfig.default 8 3 halfThenZeros 0).2
      (by decide) (by decide) (by decide)
  obtain ⟨h1, -, h3, -⟩ :=
    (tree_size_bounds StatelessConfig.default 8 3 halfThenZeros 0).1 t rnd' retCnt' h
  exact ⟨t, rnd', retCnt', h, h1, h3 (by decide)⟩

/-! ## The condition synthesizer: shape, operators, indexing -/

/-- What `rndInput` returns, by the draw `idx`: the parameter `p_idx` when
`idx < numFuncParams`, else the additional input at `idx - numFuncParams`,
which is a valid index. -/
theorem rndInput_eq (rnd : Rand) {numFuncParams : Int} {additionalInputs : List String}
    (h : 0 < numFuncParams + additionalInputs.length)
    (hfit : numFuncParams + additionalInputs.length < 2 ^ 63) :
    (((rnd.raw : Int) % (numFuncParams + additionalInputs.length) < numFuncParams →
      rndInput rnd numFuncParams additionalInputs
        = some (Operand.param ((rnd.raw : Int) % (numFuncParams + additionalInputs.length)),
            rnd.advance)) ∧
    (numFuncParams ≤ (rnd.raw : Int) % (numFuncParams + additionalInputs.length) →
      0 ≤ (rnd.raw : Int) % (numFuncParams + additionalInputs.length) - numFuncParams ∧
      ∃ hb : ((rnd.raw : Int) % (numFuncParams + additionalInputs.length)
          - numFuncParams).toNat < additionalInputs.length,
        rndInput rnd numFuncParams additionalInputs
          = some (Operand.additional (additionalInputs.get
              ⟨((rnd.raw : Int) % (numFuncParams + additionalInputs.length)
                - numFuncParams).toNat, hb⟩), rnd.advance))) := by
  have h0 := Int.emod_nonneg (rnd.raw : Int) (ne_of_gt h)
  have h1 := Int.emod_lt_of_pos (rnd.raw : Int) h
  unfold rndInput
  dsimp only
  rw [wrapInt_eq (by omega) hfit, intn_eq h]
  dsimp only
  generalize (rnd.raw : Int) % (numFuncParams + (additionalInputs.length : Int)) = idx at *
  constructor
  · intro hlt
    rw [if_pos hlt]
  · intro hge
    have hb : (idx - numFuncParams).toNat < additionalInputs.length := by omega
    refine ⟨by omega, hb, ?_⟩
    rw [if_neg (by omega), if_neg (by omega), List.getElem?_eq_getElem hb]
    rfl

/-- Every operand `rndInput` returns is a declared parameter or one of the
additional inputs. -/
theorem rndInput_declared {rnd rnd' : Rand} {numFuncParams : Int}
    {additionalInputs : List String} {a : Operand}
    (h : rndInput rnd numFuncParams additionalInputs = some (a, rnd')) :
    a.Declared numFuncParams additionalInputs := by
  unfold rndInput at h
  dsimp only at h
  split at h
  · cases h
  · rename_i idx r hidx
    obtain ⟨h0, -⟩ := intn_range hidx
    split_ifs at h with hlt hneg
    · cases h
      exact ⟨h0, hlt⟩
    · split at h
      · cases h
      · rename_i e he
        cases h
        exact List.getElem?_mem he

theorem intn_inv {rnd rnd' : Rand} {n d : Int} (h : rnd.Intn n = some (d, rnd')) :
    0 < n ∧ d = (rnd.raw : Int) % n ∧ rnd' = rnd.advance := by
  unfold Rand.Intn at h
  split_ifs at h with hn
  cases h
  exact ⟨not_le.mp hn, rfl, rfl⟩

theorem rndInput_advance {rnd rnd' : Rand} {numFuncParams : Int}
    {additionalInputs : List String} {a : Operand}
    (h : rndInput rnd numFuncParams additionalInputs = some (a, rnd')) :
    rnd' = rnd.advance := by
  unfold rndInput at h
  dsimp only at h
  split at h
  · cases h
  · rename_i idx r hidx
    obtain ⟨-, -, hr⟩ := intn_inv hidx
    split_ifs at h
    · cases h
      exact hr
    · split at h
      · cases h
      · cases h
        exact hr

theorem rndConst_advance {rnd rnd' : Rand} {maxConst c : Nat}
    (h : rndConst rnd maxConst = some (c, rnd')) : rnd' = rnd.advance := by
  rw [rndConst_eq] at h
  cases h
  rfl

/-- The `switch` hands back the stream it was given, further on. -/
theorem rndExprRight_draws {rnd rnd' : Rand} {numFuncParams : Int} {maxConst : Nat}
    {additionalInputs : List String} {shape : Int} {e : RightExpr}
    (h : rndExprRight rnd numFuncParams maxConst additionalInputs shape = some (e, rnd')) :
    rnd'.draws = rnd.draws := by
  unfold rndExprRight at h
  split_ifs at h
  all_goals
    repeat' split at h
    all_goals
      cases h <;>
      first
      | (have e1 := rndConst_advance ‹rndConst rnd maxConst = some (_, rnd')›
         rw [e1]; rfl)
      | (have e1 := rndInput_advance
           ‹rndInput rnd numFuncParams additionalInputs = some (_, rnd')›
         rw [e1]; rfl)
      | (have e2 := rndInput_advance
           ‹rndInput _ numFuncParams additionalInputs = some (_, rnd')›
         have e1 := rndConst_advance ‹rndConst rnd maxConst = some (_, _)›
         rw [e2, e1]; rfl)
      | (have e2 := rndInput_advance
           ‹rndInput _ numFuncParams additionalInputs = some (_, rnd')›
         have e1 := rndInput_advance
           ‹rndInput rnd numFuncParams additionalInputs = some (_, _)›
         rw [e2, e1]; rfl)

/-- Every operand the `switch` places is a declared one. -/
theorem rndExprRight_declared {rnd rnd' : Rand} {numFuncParams : Int} {maxConst : Nat}
    {additionalInputs : List String} {shape : Int} {e : RightExpr}
    (h : rndExprRight rnd numFuncParams maxConst additionalInputs shape = some (e, rnd')) :
    ∀ a ∈ e.operands, a.Declared numFuncParams additionalInputs := by
  unfold rndExprRight at h
  split_ifs at h
  all_goals
    repeat' split at h
    all_goals
      cases h <;> intro a ha <;>
      simp only [RightExpr.operands, List.mem_cons, List.mem_singleton, List.not_mem_nil,
        or_false] at ha <;>
      first
      | (subst ha; exact rndInput_declared (by assumption))
      | (rcases ha with rfl | rfl <;> exact rndInput_declared (by assumption))

/-- The case the `switch` takes is the one numbered by the shape draw. -/
theorem rndExprRight_shape {rnd rnd' : Rand} {numFuncParams : Int} {maxConst : Nat}
    {additionalInputs : List String} {shape : Int} {e : RightExpr}
    (h : rndExprRight rnd numFuncParams maxConst additionalInputs shape = some (e, rnd'))
    (h0 : 0 ≤ shape) (h6 : shape < 6) : e.shape = shape := by
  unfold rndExprRight at h
  split_ifs at h
  all_goals
    repeat' split at h
    all_goals
      cases h <;> simp only [RightExpr.shape] <;> omega

/-- The steps of a call of `rndCond` that returns: the left operand from the
first draw, the shape from the second, the right-hand side, and the operator
`ops[k]` from the last draw `k`. -/
theorem rndCond_inv {rnd rnd' : Rand} {numFuncParams : Int} {maxConst : Nat}
    {additionalInputs : List String} {cond : Cond}
    (h : rndCond rnd numFuncParams maxConst additionalInputs = some (cond, rnd')) :
    ∃ r3 k,
      rndInput rnd numFuncParams additionalInputs = some (cond.left, rnd.advance) ∧
      rndExprRight rnd.advance.advance numFuncParams maxConst additionalInputs
        ((rnd.advance.raw : Int) % 6) = some (cond.right, r3) ∧
      r3.Intn (ops.length : Int) = some (k, rnd') ∧ 0 ≤ k ∧ k < 6 ∧
      ops[k.toNat]? = some cond.op := by
  unfold rndCond at h
  dsimp only at h
  split at h
  · cases h
  · rename_i a r1 ha
    have hr1 := rndInput_advance ha
    subst hr1
    split at h
    · cases h
    · rename_i shape r2 hshape
      obtain ⟨-, hs, hr2⟩ := intn_inv hshape
      subst hr2 hs
      split at h
      · cases h
      · rename_i e r3 he
        split at h
        · cases h
        · rename_i k r4 hk
          obtain ⟨hk0, hk6⟩ := intn_range hk
          split_ifs at h
          split at h
          · cases h
          · rename_i op hop
            cases h
            exact ⟨r3, k, ha, he, hk, hk0, by simpa [ops] using hk6, hop⟩

/-- C13 (condition shape): every condition `rndCond` returns is printed as
`left OP right`, where `left` is one operand (a declared parameter `p_k`,
`0 ≤ k < numFuncParams`, or `uint64(e)` for an `e` of `additionalInputs`), `OP`
is one of the six operators, every operand of `right` is such an operand, and
`right` is the case (constant, operand, constant + operand, operand + operand,
constant * operand, operand * operand) whose number `0..5` is the shape draw,
the second draw of the call; and `rndCond` returns a condition for every stream
when `numFuncParams + len(additionalInputs)` is positive and, as the sum is an
`int`, below `2^63`. -/
theorem rndCond_shape (rnd : Rand) (numFuncParams : Int) (maxConst : Nat)
    (additionalInputs : List String) :
    (∀ (cond : Cond) (rnd' : Rand),
      rndCond rnd numFuncParams maxConst additionalInputs = some (cond, rnd') →
      cond.render = cond.left.render ++ " " ++ cond.op ++ " " ++ cond.right.render ∧
      cond.left.Declared numFuncParams additionalInputs ∧
      cond.op ∈ ["<", ">", "<=", ">=", "==", "!="] ∧
      (∀ a ∈ cond.right.operands, a.Declared numFuncParams additionalInputs) ∧
      cond.right.shape = (rnd.advance.raw : Int) % 6) ∧
    (0 < numFuncParams + additionalInputs.length →
      numFuncParams + additionalInputs.length < 2 ^ 63 →
      ∃ cond rnd', rndCond rnd numFuncParams maxConst additionalInputs = some (cond, rnd')) := by
  constructor
  · intro cond rnd' hc
    obtain ⟨r3, k, hleft, hright, hk, hk0, hk6, hop⟩ := rndCond_inv hc
    refine ⟨rfl, rndInput_declared hleft, ?_, rndExprRight_declared hright, ?_⟩
    · exact List.getElem?_mem hop
    · exact rndExprRight_shape hright (Int.emod_nonneg _ (by norm_num))
        (Int.emod_lt_of_pos _ (by norm_num))
  · intro hpos hfit
    obtain ⟨⟨cond, rnd'⟩, hc⟩ := rndCond_total rnd maxConst ⟨hpos, hfit⟩
    exact ⟨cond, rnd', hc⟩

theorem rndCond_shape_witness :
    ∃ cond rnd', rndCond twos 8 64 [] = some (cond, rnd') ∧
      cond.left.Declared 8 [] ∧ cond.right.shape = 2 := by
  obtain ⟨cond, rnd', h1⟩ := (rndCond_shape twos 8 64 []).2 (by decide) (by decide)
  obtain ⟨-, h3, -, -, h6⟩ := (rndCond_shape twos 8 64 []).1 cond rnd' h1
  exact ⟨cond, rnd', h1, h3, h6⟩

/-- C14 (operator coverage): the operator of every condition `rndCond` returns
is `ops[k]` for the value `k` in `[0, 6)` of the last draw of the call, so it is
one of `<`, `>`, `<=`, `>=`, `==`, `!=`; the six entries of `ops` are pairwise
distinct, so `k ↦ ops[k]` is a bijection from `[0, 6)` onto them; and each of
them is produced: with at least one operand to choose from and a number of
operands below `2^63`, so that the `int` sum does not wrap, the stream whose
every draw is `k` yields the operator `ops[k]`. -/
theorem operator_coverage :
    ops = ["<", ">", "<=", ">=", "==", "!="] ∧ ops.length = 6 ∧ ops.Nodup ∧
    (∀ (rnd : Rand) (numFuncParams : Int) (maxConst : Nat) (additionalInputs : List String)
      (cond : Cond) (rnd' : Rand),
      rndCond rnd numFuncParams maxConst additionalInputs = some (cond, rnd') →
      cond.op ∈ ops ∧
      ∃ (r3 : Rand) (k : Int), r3.Intn (ops.length : Int) = some (k, rnd') ∧ 0 ≤ k ∧ k < 6 ∧
        ops[k.toNat]? = some cond.op) ∧
    (∀ (numFuncParams : Int) (maxConst : Nat) (additionalInputs : List String),
      0 < numFuncParams + additionalInputs.length →
      numFuncParams + additionalInputs.length < 2 ^ 63 → ∀ k : Nat, k < 6 →
      ∃ cond rnd', rndCond ⟨fun _ => k, 0⟩ numFuncParams maxConst additionalInputs
          = some (cond, rnd') ∧ ops[k]? = some cond.op) := by
  refine ⟨rfl, rfl, by decide, ?_, ?_⟩
  · intro rnd numFuncParams maxConst additionalInputs cond rnd' h
    obtain ⟨r3, k, -, -, hk, hk0, hk6, hop⟩ := rndCond_inv h
    exact ⟨List.getElem?_mem hop, r3, k, hk, hk0, hk6, hop⟩
  · intro numFuncParams maxConst additionalInputs hpos hfit k hk
    obtain ⟨⟨cond, rnd'⟩, hc⟩ :=
      rndCond_total (⟨fun _ => k, 0⟩ : Rand) maxConst ⟨hpos, hfit⟩
    obtain ⟨r3, k', -, hright, hk', -, -, hop⟩ := rndCond_inv hc
    refine ⟨cond, rnd', hc, ?_⟩
    have hdraws : r3.draws = fun _ => k := rndExprRight_draws hright
    obtain ⟨-, hval, -⟩ := intn_inv hk'
    have hraw : r3.raw = k := by
      unfold Rand.raw
      rw [hdraws]
    rw [hraw] at hval
    have hk6 : ((ops.length : Nat) : Int) = 6 := rfl
    rw [hk6] at hval
    have : k'.toNat = k := by omega
    rw [← this]
    exact hop

theorem operator_coverage_witness :
    ∃ cond rnd', rndCond ⟨fun _ => 5, 0⟩ 8 64 [] = some (cond, rnd') ∧
      ops[5]? = some cond.op :=
  operator_coverage.2.2.2.2 8 64 [] (by decide) (by decide) 5 (by decide)

/-- C18 (no division by zero in the constant reduction): whenever the guard
`maxConst < c` holds for the 64-bit draw `c`, `maxConst` is not `2^64 - 1` and
the modulus `maxConst + 1`, computed modulo `2^64`, is not zero; for
`maxConst = 2^64 - 1` the guard never holds; so `rndConst` returns a constant
for every draw and every bound. -/
theorem rndConst_modulus_nonzero (rnd : Rand) (maxConst : Nat) :
    (maxConst < rnd.Uint64.1 → maxConst ≠ 2 ^ 64 - 1 ∧ (maxConst + 1) % 2 ^ 64 ≠ 0) ∧
    (maxConst = 2 ^ 64 - 1 → ¬ maxConst < rnd.Uint64.1) ∧
    ∃ c, rndConst rnd maxConst = some (c, rnd.advance) := by
  have hlt := uint64_lt rnd
  refine ⟨?_, ?_, ⟨_, rndConst_eq rnd maxConst⟩⟩
  · intro h
    have hm : (maxConst + 1) % 2 ^ 64 = maxConst + 1 := Nat.mod_eq_of_lt (by omega)
    rw [hm]
    omega
  · intro h
    omega

theorem rndConst_modulus_nonzero_witness :
    (64 + 1) % 2 ^ 64 ≠ 0 ∧ ∃ c, rndConst twoHundreds 64 = some (c, twoHundreds.advance) :=
  ⟨((rndConst_modulus_nonzero twoHundreds 64).1 (by decide)).2,
    (rndConst_modulus_nonzero twoHundreds 64).2.2⟩

/-! ## Maze mode: the conditions of the chains -/

theorem rndCond_declared {rnd rnd' : Rand} {numFuncParams : Int} {maxConst : Nat}
    {additionalInputs : List String} {cond : Cond}
    (h : rndCond rnd numFuncParams maxConst additionalInputs = some (cond, rnd')) :
    ∀ a ∈ cond.operands, a.Declared numFuncParams additionalInputs := by
  obtain ⟨r3, k, hleft, hright, -⟩ := rndCond_inv h
  intro a ha
  unfold Cond.operands at ha
  rcases List.mem_cons.mp ha with rfl | ha
  · exact rndInput_declared hleft
  · exact rndExprRight_declared hright a ha

/-- Every condition of a chain is returned by a call of `rndCond`. -/
theorem rndLinearStmtBlock_conds (cfg : StatefulConfig) :
    ∀ (n : Nat) (depth indent rv : Int) (rnd : Rand) (c : Chain) (rnd' : Rand),
      depth ≤ n → rndLinearStmtBlock cfg depth indent rv rnd = some (c, rnd') →
      ∀ cond ∈ c.conds, Synthesized cfg cond := by
  intro n
  induction n with
  | zero =>
    intro depth indent rv rnd c rnd' hn h
    rw [rndLinearStmtBlock, if_pos (by simp at hn; omega)] at h
    split at h
    · cases h
    · cases h
      simp [Chain.conds]
  | succ n ih =>
    intro depth indent rv rnd c rnd' hn h
    rw [rndLinearStmtBlock] at h
    by_cases hd : depth < 1
    · rw [if_pos hd] at h
      split at h
      · cases h
      · cases h
        simp [Chain.conds]
    · rw [if_neg hd] at h
      split at h
      · cases h
      · split at h
        · cases h
        · rename_i rCond r1 hcond
          split at h
          · cases h
          · rename_i th r2 hth
            cases h
            have hn1 : depth - 1 ≤ (n : Int) := by push_cast at hn; omega
            intro cond hc
            simp only [Chain.conds, List.mem_cons] at hc
            rcases hc with rfl | hc
            · exact ⟨_, _, hcond⟩
            · exact ih _ _ _ _ _ _ hn1 hth cond hc

theorem mazeCell_conds {cfg : StatefulConfig} {i j : Int} {st st' : MazeState}
    (h : mazeCell cfg i j st = some st')
    (hst : ∀ c ∈ st.body, c.CondsSynthesized cfg) :
    ∀ c ∈ st'.body, c.CondsSynthesized cfg := by
  unfold mazeCell at h
  dsimp only at h
  have hnew : ∀ (cell : Cell) (r : Rand) (k : Int), cell.CondsSynthesized cfg →
      st' = ⟨r, k, st.body ++ [cell]⟩ → ∀ c ∈ st'.body, c.CondsSynthesized cfg := by
    intro cell r k hcell hst' c hc
    rw [hst'] at hc
    rcases List.mem_append.mp hc with hc | hc
    · exact hst c hc
    · rw [List.mem_singleton] at hc
      rw [hc]
      exact hcell
  split_ifs at h with hij
  · split at h
    · cases h
    · rename_i d rnd1 hd
      split_ifs at h with hmin
      · split at h
        · cases h
        · rename_i ch rnd2 hch
          cases h
          refine hnew _ _ _ ?_ rfl
          intro ch' hb cond hcond
          cases hb
          exact rndLinearStmtBlock_conds cfg d.toNat d 4 st.retCnt rnd1 ch rnd2
            (le_toNat_cast _) hch cond hcond
      · cases h
        refine hnew _ _ _ ?_ rfl
        intro ch' hb
        cases hb
  · cases h
    refine hnew _ _ _ ?_ rfl
    intro ch' hb
    cases hb

/-- Every condition in the body is returned by a call of `rndCond`. -/
theorem mazeBody_conds {cfg : StatefulConfig} {rnd : Rand} {st : MazeState}
    (h : mazeBody cfg rnd = some st) : ∀ c ∈ st.body, c.CondsSynthesized cfg := by
  unfold mazeBody at h
  refine forLoop_inv (fun i t => mazeRow cfg i t)
    (fun _ t => ∀ c ∈ t.body, c.CondsSynthesized cfg)
    cfg.dimX.toNat ⟨rnd, 0, []⟩ st (by simp) ?_ h
  intro m t t' _ hI hrow
  unfold mazeRow at hrow
  refine forLoop_inv (fun j u => mazeCell cfg m j u)
    (fun _ u => ∀ c ∈ u.body, c.CondsSynthesized cfg)
    cfg.dimY.toNat t t' hI ?_ hrow
  intro k u u' _ hu hcell
  exact mazeCell_conds hcell hu

/-- C17 (operand indexing safety): with `numFuncParams ≥ 0`, at least one
operand to choose from and a number of operands below `2^63`, so that the `int`
sum does not wrap, the draw `idx` of `rndInput` lies in
`[0, numFuncParams + len(additionalInputs))`; if `idx < numFuncParams` the
result is the declared parameter `p_idx`, otherwise `idx - numFuncParams` is a
valid index of `additionalInputs` and the result is that entry, so the call does
not panic; and when `additionalInputs` is empty, as in the maze builder, every
operand of every condition in the body is a declared parameter `p_k` with
`0 ≤ k < numFuncParams`. -/
theorem operand_indexing_safe :
    (∀ (rnd : Rand) (numFuncParams : Int) (additionalInputs : List String),
      0 ≤ numFuncParams → 0 < numFuncParams + additionalInputs.length →
      numFuncParams + additionalInputs.length < 2 ^ 63 →
      ∃ idx, rnd.Intn (wrapInt (numFuncParams + additionalInputs.length))
          = some (idx, rnd.advance) ∧
        0 ≤ idx ∧ idx < numFuncParams + additionalInputs.length ∧
        (idx < numFuncParams →
          rndInput rnd numFuncParams additionalInputs
            = some (Operand.param idx, rnd.advance)) ∧
        (numFuncParams ≤ idx →
          0 ≤ idx - numFuncParams ∧
          ∃ hb : (idx - numFuncParams).toNat < additionalInputs.length,
            rndInput rnd numFuncParams additionalInputs
              = some (Operand.additional
                  (additionalInputs.get ⟨(idx - numFuncParams).toNat, hb⟩), rnd.advance))) ∧
    (∀ (cfg : StatefulConfig) (rnd : Rand) (st : MazeState),
      cfg.additionalInputs = [] → mazeBody cfg rnd = some st →
      ∀ c ∈ st.body, ∀ ch, c.bl = CellBody.chain ch → ∀ cond ∈ ch.conds,
        ∀ a ∈ cond.operands, ∃ k : Int, a = Operand.param k ∧ 0 ≤ k ∧ k < cfg.numFuncParams) := by
  constructor
  · intro rnd numFuncParams additionalInputs _ hin hfit
    obtain ⟨h1, h2⟩ := rndInput_eq rnd hin hfit
    refine ⟨_, ?_, Int.emod_nonneg _ (ne_of_gt hin), Int.emod_lt_of_pos _ hin, h1, h2⟩
    rw [wrapInt_eq (by omega) hfit]
    exact intn_eq hin
  · intro cfg rnd st hempty h c hc ch hbl cond hcond a ha
    obtain ⟨r, r', hsyn⟩ := mazeBody_conds h c hc ch hbl cond hcond
    have hdecl := rndCond_declared hsyn a ha
    cases a with
    | param k => exact ⟨k, rfl, hdecl.1, hdecl.2⟩
    | additional e =>
      rw [hempty] at hdecl
      simp [Operand.Declared] at hdecl

theorem operand_indexing_safe_witness :
    (∃ idx, twos.Intn (wrapInt
          (8 + (["msg.value", "tx.gasprice", "block.number"].length : Int)))
        = some (idx, twos.advance) ∧
      0 ≤ idx ∧ idx < 8 + (["msg.value", "tx.gasprice", "block.number"].length : Int)) ∧
    ∃ st, mazeBody StatefulConfig.default twos = some st ∧
      ∀ c ∈ st.body, ∀ ch, c.bl = CellBody.chain ch → ∀ cond ∈ ch.conds,
        ∀ a ∈ cond.operands, ∃ k : Int, a = Operand.param k ∧ 0 ≤ k ∧ k < 8 := by
  constructor
  · obtain ⟨idx, h1, h2, h3, -⟩ := operand_indexing_safe.1 twos 8
      ["msg.value", "tx.gasprice", "block.number"] (by decide) (by decide) (by decide)
    exact ⟨idx, h1, h2, h3⟩
  · obtain ⟨st, h⟩ := mazeBody_total StatefulConfig.default twos
      ⟨by decide, by decide⟩ ⟨by decide, by decide⟩
    exact ⟨st, h, operand_indexing_safe.2 StatefulConfig.default twos st rfl h⟩

/-! ## Maze mode: order of the guards and dispatch -/

/-- C15 (error propagation in the emitter): from the call of `Parse` on, a
generator returns `nil` exactly when parsing, file creation and execution all
succeed; otherwise it returns the error of the first of the three that fails,
unchanged, and makes no later call: after a parse error the file is not
created, after a creation error nothing is executed; each generator that has
built its body returns that result, and `run` returns the result of
`generateBenchmarkStateful` unchanged. -/
theorem emitter_error_propagation (env : EmitEnv) :
    ((writeProgram env).1 = none ↔
      env.parseErr = none ∧ env.createErr = none ∧ env.execErr = none) ∧
    (∀ e, env.parseErr = some e → writeProgram env = (some e, [EmitStep.parse])) ∧
    (∀ e, env.parseErr = none → env.createErr = some e →
      writeProgram env = (some e, [EmitStep.parse, EmitStep.create])) ∧
    (∀ e, env.parseErr = none → env.createErr = none → env.execErr = some e →
      writeProgram env
        = (some e, [EmitStep.parse, EmitStep.create, EmitStep.execute, EmitStep.close])) ∧
    (∀ (cfg : StatefulConfig) (rnd : Rand) (text : String),
      generateBenchmarkStateful cfg rnd = some text →
      generateBenchmarkStatefulResult cfg rnd env = some (writeProgram env)) ∧
    (∀ (cfg : StatelessConfig) (rnd : Rand) (text : String),
      generateBenchmarkStateless cfg rnd = some text →
      generateBenchmarkStatelessResult cfg rnd env = some (writeProgram env)) ∧
    (∀ (cfg : StatefulConfig) (cfgTree : StatelessConfig) (rnd : Rand),
      run cfg cfgTree rnd env = generateBenchmarkStatefulResult cfg rnd env) := by
  obtain ⟨p, c, x⟩ := env
  refine ⟨?_, ?_, ?_, ?_, ?_, ?_, ?_⟩
  · cases p <;> cases c <;> cases x <;> simp [writeProgram]
  · intro e h
    simp only at h
    subst h
    rfl
  · intro e h1 h2
    simp only at h1 h2
    subst h1 h2
    rfl
  · intro e h1 h2 h3
    simp only at h1 h2 h3
    subst h1 h2 h3
    rfl
  · intro cfg rnd text h
    unfold generateBenchmarkStatefulResult
    rw [h]
  · intro cfg rnd text h
    unfold generateBenchmarkStatelessResult
    rw [h]
  · intro cfg cfgTree rnd
    rfl

theorem emitter_error_propagation_witness :
    writeProgram ⟨some "template: unexpected EOF", none, some "write: disk full"⟩
      = (some "template: unexpected EOF", [EmitStep.parse]) ∧
    writeProgram ⟨none, some "open: permission denied", none⟩
      = (some "open: permission denied", [EmitStep.parse, EmitStep.create]) :=
  ⟨(emitter_error_propagation
      ⟨some "template: unexpected EOF", none, some "write: disk full"⟩).2.1 _ rfl,
    (emitter_error_propagation ⟨none, some "open: permission denied", none⟩).2.2.1 _ rfl rfl⟩

/-! ## Determinism: lemmas -/

theorem same_raw {r s : Rand} (h : r.Same s) : r.raw = s.raw := by
  have := h 0
  simpa [Rand.raw] using this

theorem same_advance {r s : Rand} (h : r.Same s) : r.advance.Same s.advance := by
  intro k
  have := h (k + 1)
  simp only [Rand.advance]
  rw [Nat.add_assoc, Nat.add_assoc, Nat.add_comm 1 k]
  exact this

theorem optRel_none {α : Type} {R : α → α → Prop} : OptRel R (none : Option α) none :=
  Or.inl ⟨rfl, rfl⟩

theorem optRel_some {α : Type} {R : α → α → Prop} {a b : α} (h : R a b) :
    OptRel R (some a) (some b) :=
  Or.inr ⟨a, b, rfl, rfl, h⟩

theorem sameStep_mk {α : Type} (a : α) {r s : Rand} (h : r.Same s) :
    SameStep (a, r) (a, s) := ⟨rfl, h⟩

theorem intn_same {r s : Rand} (n : Int) (h : r.Same s) :
    OptRel SameStep (r.Intn n) (s.Intn n) := by
  unfold Rand.Intn
  split_ifs
  · exact optRel_none
  · rw [same_raw h]
    exact optRel_some (sameStep_mk _ (same_advance h))

theorem rndInput_same {r s : Rand} (numFuncParams : Int) (additionalInputs : List String)
    (h : r.Same s) :
    OptRel SameStep (rndInput r numFuncParams additionalInputs)
      (rndInput s numFuncParams additionalInputs) := by
  unfold rndInput
  dsimp only
  rcases intn_same (wrapInt (numFuncParams + additionalInputs.length)) h with
    ⟨h1, h2⟩ | ⟨⟨idx, r1⟩, ⟨idx', s1⟩, h1, h2, hidx, hs⟩
  · rw [h1, h2]
    exact optRel_none
  · simp only at hidx hs
    subst hidx
    rw [h1, h2]
    dsimp only
    split_ifs
    · exact optRel_some (sameStep_mk _ hs)
    · exact optRel_none
    · cases additionalInputs[(idx - numFuncParams).toNat]? with
      | none => exact optRel_none
      | some e => exact optRel_some (sameStep_mk _ hs)

theorem rndConst_same {r s : Rand} (maxConst : Nat) (h : r.Same s) :
    OptRel SameStep (rndConst r maxConst) (rndConst s maxConst) := by
  rw [rndConst_eq, rndConst_eq]
  have hu : r.Uint64.1 = s.Uint64.1 := by
    unfold Rand.Uint64
    rw [same_raw h]
  rw [hu]
  exact optRel_some (sameStep_mk _ (same_advance h))

theorem rndExprRight_same {r s : Rand} (numFuncParams : Int) (maxConst : Nat)
    (additionalInputs : List String) (shape : Int) (h : r.Same s) :
    OptRel SameStep (rndExprRight r numFuncParams maxConst additionalInputs shape)
      (rndExprRight s numFuncParams maxConst additionalInputs shape) := by
  unfold rndExprRight
  split_ifs
  all_goals
    first
    | (rcases rndConst_same maxConst h with
        ⟨h1, h2⟩ | ⟨⟨c, r1⟩, ⟨c', s1⟩, h1, h2, hc, hs1⟩
       · rw [h1, h2]
         exact optRel_none
       · simp only at hc hs1
         subst hc
         rw [h1, h2]
         dsimp only
         first
         | exact optRel_some (sameStep_mk _ hs1)
         | (rcases rndInput_same numFuncParams additionalInputs hs1 with
             ⟨h3, h4⟩ | ⟨⟨a, r2⟩, ⟨a', s2⟩, h3, h4, ha, hs2⟩
            · rw [h3, h4]
              exact optRel_none
            · simp only at ha hs2
              subst ha
              rw [h3, h4]
              exact optRel_some (sameStep_mk _ hs2)))
    | (rcases rndInput_same numFuncParams additionalInputs h with
        ⟨h1, h2⟩ | ⟨⟨c, r1⟩, ⟨c', s1⟩, h1, h2, hc, hs1⟩
       · rw [h1, h2]
         exact optRel_none
       · simp only at hc hs1
         subst hc
         rw [h1, h2]
         dsimp only
         first
         | exact optRel_some (sameStep_mk _ hs1)
         | (rcases rndInput_same numFuncParams additionalInputs hs1 with
             ⟨h3, h4⟩ | ⟨⟨a, r2⟩, ⟨a', s2⟩, h3, h4, ha, hs2⟩
            · rw [h3, h4]
              exact optRel_none
            · simp only at ha hs2
              subst ha
              rw [h3, h4]
              exact optRel_some (sameStep_mk _ hs2)))

theorem rndCond_same {r s : Rand} (numFuncParams : Int) (maxConst : Nat)
    (additionalInputs : List String) (h : r.Same s) :
    OptRel SameStep (rndCond r numFuncParams maxConst additionalInputs)
      (rndCond s numFuncParams maxConst additionalInputs) := by
  unfold rndCond
  rcases rndInput_same numFuncParams additionalInputs h with
    ⟨h1, h2⟩ | ⟨⟨a, r1⟩, ⟨a', s1⟩, h1, h2, ha, hs1⟩
  · rw [h1, h2]
    exact optRel_none
  simp only at ha hs1
  subst ha
  rw [h1, h2]
  dsimp only
  rcases intn_same 6 hs1 with ⟨h3, h4⟩ | ⟨⟨shape, r2⟩, ⟨shape', s2⟩, h3, h4, hsh, hs2⟩
  · rw [h3, h4]
    exact optRel_none
  simp only at hsh hs2
  subst hsh
  rw [h3, h4]
  dsimp only
  rcases rndExprRight_same numFuncParams maxConst additionalInputs shape hs2 with
    ⟨h5, h6⟩ | ⟨⟨e, r3⟩, ⟨e', s3⟩, h5, h6, he, hs3⟩
  · rw [h5, h6]
    exact optRel_none
  simp only at he hs3
  subst he
  rw [h5, h6]
  dsimp only
  rcases intn_same (ops.length : Int) hs3 with
    ⟨h7, h8⟩ | ⟨⟨k, r4⟩, ⟨k', s4⟩, h7, h8, hk, hs4⟩
  · rw [h7, h8]
    exact optRel_none
  simp only at hk hs4
  subst hk
  rw [h7, h8]
  dsimp only
  split_ifs
  · exact optRel_none
  · cases ops[k.toNat]? with
    | none => exact optRel_none
    | some op => exact optRel_some (sameStep_mk _ hs4)

theorem treeLeaf_same {r s : Rand} (indent retCnt : Int) (h : r.Same s) :
    OptRel SameTree (treeLeaf indent r retCnt) (treeLeaf indent s retCnt) := by
  unfold treeLeaf
  dsimp only
  cases indentStr indent with
  | none => exact optRel_none
  | some _ => exact optRel_some ⟨rfl, h, rfl⟩

theorem float64_same {r s : Rand} (h : r.Same s) :
    r.Float64.1 = s.Float64.1 ∧ r.Float64.2.Same s.Float64.2 := by
  constructor
  · unfold Rand.Float64
    rw [same_raw h]
  · exact same_advance h

/-- Two calls of `rndTreeStmtBlock` on generators that hand out the same draws
return the same tree and counter. -/
theorem rndTreeStmtBlock_same (cfg : StatelessConfig) :
    ∀ (n : Nat) (maxDepth indent : Int) (r s : Rand) (retCnt : Int),
      maxDepth ≤ n → r.Same s →
      OptRel SameTree (rndTreeStmtBlock cfg maxDepth indent r retCnt)
        (rndTreeStmtBlock cfg maxDepth indent s retCnt) := by
  intro n
  induction n with
  | zero =>
    intro maxDepth indent r s retCnt hn h
    have hd : maxDepth < 1 := by simp at hn; omega
    conv_lhs => rw [rndTreeStmtBlock]
    conv_rhs => rw [rndTreeStmtBlock]
    rw [if_pos hd, if_pos hd]
    exact treeLeaf_same indent retCnt h
  | succ n ih =>
    intro maxDepth indent r s retCnt hn h
    conv_lhs => rw [rndTreeStmtBlock]
    conv_rhs => rw [rndTreeStmtBlock]
    by_cases hd : maxDepth < 1
    · rw [if_pos hd, if_pos hd]
      exact treeLeaf_same indent retCnt h
    · rw [if_neg hd, if_neg hd]
      dsimp only
      obtain ⟨hf, hadv⟩ := float64_same h
      rw [hf]
      by_cases hp : s.Float64.1 < cfg.retProb
      · rw [if_pos hp, if_pos hp]
        exact treeLeaf_same indent retCnt hadv
      · rw [if_neg hp, if_neg hp]
        cases indentStr indent with
        | none => exact optRel_none
        | some _ =>
          dsimp only
          rcases rndCond_same cfg.numFuncParams cfg.maxConst cfg.additionalInputs hadv with
            ⟨h1, h2⟩ | ⟨⟨cond, r1⟩, ⟨cond', s1⟩, h1, h2, hc, hs1⟩
          · rw [h1, h2]
            exact optRel_none
          simp only at hc hs1
          subst hc
          rw [h1, h2]
          dsimp only
          have hn1 : maxDepth - 1 ≤ (n : Int) := by push_cast at hn; omega
          rcases ih (maxDepth - 1) (indent + 1) r1 s1 retCnt hn1 hs1 with
            ⟨h3, h4⟩ | ⟨⟨th, r2, c2⟩, ⟨th', s2, c2'⟩, h3, h4, hth, hs2, hc2⟩
          · rw [h3, h4]
            exact optRel_none
          simp only at hth hs2 hc2
          subst hth hc2
          rw [h3, h4]
          dsimp only
          rcases ih (maxDepth - 1) (indent + 1) r2 s2 c2 hn1 hs2 with
            ⟨h5, h6⟩ | ⟨⟨el, r3, c3⟩, ⟨el', s3, c3'⟩, h5, h6, hel, hs3, hc3⟩
          · rw [h5, h6]
            exact optRel_none
          simp only at hel hs3 hc3
          subst hel hc3
          rw [h5, h6]
          exact optRel_some ⟨rfl, hs3, rfl⟩

/-- Two calls of `rndLinearStmtBlock` on generators that hand out the same
draws return the same chain. -/
theorem rndLinearStmtBlock_same (cfg : StatefulConfig) :
    ∀ (n : Nat) (depth indent rv : Int) (r s : Rand), depth ≤ n → r.Same s →
      OptRel SameStep (rndLinearStmtBlock cfg depth indent rv r)
        (rndLinearStmtBlock cfg depth indent rv s) := by
  intro n
  induction n with
  | zero =>
    intro depth indent rv r s hn h
    have hd : depth < 1 := by simp at hn; omega
    conv_lhs => rw [rndLinearStmtBlock]
    conv_rhs => rw [rndLinearStmtBlock]
    rw [if_pos hd, if_pos hd]
    cases indentStr indent with
    | none => exact optRel_none
    | some _ => exact optRel_some (sameStep_mk _ h)
  | succ n ih =>
    intro depth indent rv r s hn h
    conv_lhs => rw [rndLinearStmtBlock]
    conv_rhs => rw [rndLinearStmtBlock]
    by_cases hd : depth < 1
    · rw [if_pos hd, if_pos hd]
      cases indentStr indent with
      | none => exact optRel_none
      | some _ => exact optRel_some (sameStep_mk _ h)
    · rw [if_neg hd, if_neg hd]
      cases indentStr indent with
      | none => exact optRel_none
      | some _ =>
        dsimp only
        rcases rndCond_same cfg.numFuncParams cfg.maxConst cfg.additionalInputs h with
          ⟨h1, h2⟩ | ⟨⟨cond, r1⟩, ⟨cond', s1⟩, h1, h2, hc, hs1⟩
        · rw [h1, h2]
          exact optRel_none
        simp only at hc hs1
        subst hc
        rw [h1, h2]
        dsimp only
        have hn1 : depth - 1 ≤ (n : Int) := by push_cast at hn; omega
        rcases ih (depth - 1) (indent + 1) rv r1 s1 hn1 hs1 with
          ⟨h3, h4⟩ | ⟨⟨th, r2⟩, ⟨th', s2⟩, h3, h4, hth, hs2⟩
        · rw [h3, h4]
          exact optRel_none
        simp only at hth hs2
        subst hth
        rw [h3, h4]
        exact optRel_some (sameStep_mk _ hs2)

theorem mazeCell_same (cfg : StatefulConfig) (i j : Int) {a b : MazeState} (h : a.Same b) :
    OptRel MazeState.Same (mazeCell cfg i j a) (mazeCell cfg i j b) := by
  obtain ⟨ra, ca, ba⟩ := a
  obtain ⟨rb, cb, bb⟩ := b
  obtain ⟨hr, hc, hb⟩ := h
  simp only at hr hc hb
  subst hc hb
  unfold mazeCell
  dsimp only
  split_ifs
  · rcases intn_same (wrapInt (cfg.maxDepth + 1)) hr with
      ⟨h1, h2⟩ | ⟨⟨d, r1⟩, ⟨d', s1⟩, h1, h2, hd, hs1⟩
    · rw [h1, h2]
      exact optRel_none
    simp only at hd hs1
    subst hd
    rw [h1, h2]
    dsimp only
    split_ifs
    · rcases rndLinearStmtBlock_same cfg d.toNat d 4 ca r1 s1 (le_toNat_cast _) hs1 with
        ⟨h3, h4⟩ | ⟨⟨ch, r2⟩, ⟨ch', s2⟩, h3, h4, hch, hs2⟩
      · rw [h3, h4]
        exact optRel_none
      simp only at hch hs2
      subst hch
      rw [h3, h4]
      exact optRel_some ⟨hs2, rfl, rfl⟩
    · exact optRel_some ⟨hs1, rfl, rfl⟩
  · exact optRel_some ⟨hr, rfl, rfl⟩

theorem forLoop_same {σ : Type} (R : σ → σ → Prop) (body : Int → σ → Option σ)
    (hbody : ∀ (k : Int) (a b : σ), R a b → OptRel R (body k a) (body k b)) :
    ∀ (n : Nat) (a b : σ), R a b → OptRel R (forLoop body n a) (forLoop body n b) := by
  intro n
  induction n with
  | zero =>
    intro a b h
    exact optRel_some h
  | succ n ih =>
    intro a b h
    simp only [forLoop]
    rcases ih a b h with ⟨h1, h2⟩ | ⟨a', b', h1, h2, h'⟩
    · rw [h1, h2]
      exact optRel_none
    · rw [h1, h2]
      exact hbody n a' b' h'

/-- Two runs of the maze loops on generators that hand out the same draws end
with the same counter and the same body. -/
theorem mazeBody_same (cfg : StatefulConfig) {r s : Rand} (h : r.Same s) :
    OptRel MazeState.Same (mazeBody cfg r) (mazeBody cfg s) := by
  unfold mazeBody
  refine forLoop_same MazeState.Same _ ?_ cfg.dimX.toNat _ _ ⟨h, rfl, rfl⟩
  intro i a b hab
  unfold mazeRow
  exact forLoop_same MazeState.Same _ (fun j a b hab => mazeCell_same cfg i j hab)
    cfg.dimY.toNat a b hab

/-- C12 (determinism): two runs of a generator with the same configuration on
generators that hand out the same sequence of draws, as two generators seeded
alike do, build the same placeholder values, body text included, and write the
same text, or panic both; this holds for the maze builder and for the tree
builder.  Each run takes nothing but the configuration and its generator, and
starts its counter at `0`: the first leaf of a tree is tagged `0` and the first
cell of a maze has the value `0`. -/
theorem generator_deterministic :
    (∀ (cfg : StatefulConfig) (r s : Rand), r.Same s →
      (mazeBody cfg r).map (statefulPlaceholders cfg)
        = (mazeBody cfg s).map (statefulPlaceholders cfg) ∧
      generateBenchmarkStateful cfg r = generateBenchmarkStateful cfg s) ∧
    (∀ (cfg : StatelessConfig) (r s : Rand), r.Same s →
      (statelessBody cfg r).map (fun x => statelessPlaceholders cfg x.1)
        = (statelessBody cfg s).map (fun x => statelessPlaceholders cfg x.1) ∧
      generateBenchmarkStateless cfg r = generateBenchmarkStateless cfg s) ∧
    (∀ (cfg : StatelessConfig) (r : Rand) (t : BodyNode) (r' : Rand) (retCnt' : Int),
      statelessBody cfg r = some (t, r', retCnt') → t.markerIds.head? = some 0) ∧
    (∀ (cfg : StatefulConfig) (r : Rand) (st : MazeState) (c : Cell),
      mazeBody cfg r = some st → st.body.head? = some c → c.rv = 0) := by
  refine ⟨?_, ?_, ?_, ?_⟩
  · intro cfg r s h
    unfold generateBenchmarkStateful
    rcases mazeBody_same cfg h with ⟨h1, h2⟩ | ⟨a, b, h1, h2, -, hc, hb⟩
    · rw [h1, h2]
      exact ⟨rfl, rfl⟩
    · rw [h1, h2]
      have hp : statefulPlaceholders cfg a = statefulPlaceholders cfg b := by
        unfold statefulPlaceholders
        rw [hc, hb]
      refine ⟨?_, ?_⟩
      · simp only [Option.map_some', hp]
      · simp only [hp]
  · intro cfg r s h
    unfold generateBenchmarkStateless statelessBody
    rcases rndTreeStmtBlock_same cfg cfg.maxDepth.toNat cfg.maxDepth 3 r s 0
        (le_toNat_cast _) h with
      ⟨h1, h2⟩ | ⟨⟨t, r1, c1⟩, ⟨t', s1, c1'⟩, h1, h2, ht, -, -⟩
    · rw [h1, h2]
      exact ⟨rfl, rfl⟩
    · simp only at ht
      subst ht
      rw [h1, h2]
      exact ⟨rfl, rfl⟩
  · intro cfg r t r' retCnt' h
    obtain ⟨hl, -⟩ := rndTreeStmtBlock_leaves cfg cfg.maxDepth.toNat cfg.maxDepth 3 r 0 t r'
      retCnt' (le_toNat_cast _) h
    have hpos : 1 ≤ t.leaves.length := by
      rw [leaves_length, leafCount_eq_branches_succ]
      omega
    unfold BodyNode.markerIds
    rw [hl]
    obtain ⟨m, hm⟩ : ∃ m, t.leaves.length = m + 1 := ⟨t.leaves.length - 1, by omega⟩
    rw [hm, List.range_succ_eq_map]
    simp
  · intro cfg r st c h hhead
    have hrv := mazeBody_rv h
    cases hb : st.body with
    | nil => rw [hb] at hhead; cases hhead
    | cons c' rest =>
      rw [hb] at hhead hrv
      simp only [List.head?_cons, Option.some.injEq] at hhead
      subst hhead
      have hlen := congrArg List.length hrv
      simp only [List.map_cons, List.length_cons, List.length_map, List.length_range] at hlen
      rw [← hlen, List.range_succ_eq_map] at hrv
      simp only [List.map_cons, List.cons.injEq] at hrv
      simpa using hrv.1

theorem generator_deterministic_witness :
    generateBenchmarkStateful StatefulConfig.default twos
      = generateBenchmarkStateful StatefulConfig.default ⟨fun k => if k < 5 then 7 else 2, 5⟩ ∧
    generateBenchmarkStateless StatelessConfig.default twos
      = generateBenchmarkStateless StatelessConfig.default ⟨fun k => if k < 5 then 7 else 2, 5⟩ := by
  have hsame : twos.Same ⟨fun k => if k < 5 then 7 else 2, 5⟩ := by
    intro k
    have : ¬ (5 + k < 5) := by omega
    simp [twos, this]
  exact ⟨(generator_deterministic.1 StatefulConfig.default _ _ hsame).2,
    (generator_deterministic.2.1 StatelessConfig.default _ _ hsame).2⟩

/-! ## Maze mode: the cell rule -/

/-- C8 (maze cell rule): for a cell other than the origin whose drawn depth is
`d`, `d` is not negative and, `maxDepth` being a value of `int`, at most
`maxDepth`; if `d < minDepth` the loop body writes the wall `require(false)`,
which has no marker; otherwise, whatever chain `rndLinearStmtBlock(d, 4, rv)`
returns, the loop body writes it, it has exactly `d` nested guards, each with a
condition from `rndCond` and, by the type of chains, no else arm, and it ends
in the one marker of the cell, tagged `rv`; and with at least one operand to
choose from and a number of operands below `2^63` the chain is returned. -/
theorem maze_cell_rule (cfg : StatefulConfig) (i j : Int) (st : MazeState) (d : Int)
    (rnd1 : Rand) (hij : 0 < i ∨ 0 < j)
    (hd : st.rnd.Intn (wrapInt (cfg.maxDepth + 1)) = some (d, rnd1)) :
    (0 ≤ d ∧ (IsGoInt cfg.maxDepth → d ≤ cfg.maxDepth)) ∧
    (d < cfg.minDepth →
      mazeCell cfg i j st
        = some ⟨rnd1, st.retCnt + 1, st.body ++ [⟨i, j, CellBody.wall, st.retCnt⟩]⟩ ∧
      CellBody.wall.render = "        require(false);  // wall" ∧
      CellBody.wall.markerIds = []) ∧
    (cfg.minDepth ≤ d → ∀ (ch : Chain) (rnd2 : Rand),
      rndLinearStmtBlock cfg d 4 st.retCnt rnd1 = some (ch, rnd2) →
      mazeCell cfg i j st
        = some ⟨rnd2, st.retCnt + 1, st.body ++ [⟨i, j, CellBody.chain ch, st.retCnt⟩]⟩ ∧
      (ch.depth : Int) = d ∧ (ch.conds.length : Int) = d ∧
      (∀ cond ∈ ch.conds, Synthesized cfg cond) ∧ ch.marker = st.retCnt ∧
      (CellBody.chain ch).markerIds = [st.retCnt]) ∧
    (cfg.minDepth ≤ d → 0 < cfg.numFuncParams + cfg.additionalInputs.length →
      cfg.numFuncParams + cfg.additionalInputs.length < 2 ^ 63 →
      ∃ r, rndLinearStmtBlock cfg d 4 st.retCnt rnd1 = some r) := by
  obtain ⟨hd0, hd1⟩ := intn_range hd
  refine ⟨⟨hd0, ?_⟩, ?_, ?_, ?_⟩
  · intro hgo
    have hle := wrapInt_le (z := cfg.maxDepth + 1) (by have := hgo.1; omega) (by omega)
    omega
  · intro hlt
    refine ⟨?_, rfl, rfl⟩
    unfold mazeCell
    dsimp only
    rw [if_pos hij, hd]
    dsimp only
    rw [if_neg (not_le.mpr hlt)]
  · intro hle ch rnd2 hch
    obtain ⟨hm, hdep⟩ := rndLinearStmtBlock_spec cfg d.toNat d 4 st.retCnt rnd1 ch rnd2
      (le_toNat_cast _) hch
    have hcl : ∀ c : Chain, c.conds.length = c.depth := by
      intro c
      induction c with
      | bug _ _ => rfl
      | guard _ _ th ih => simp [Chain.conds, Chain.depth, ih]
    have hdepth : (ch.depth : Int) = d := by
      rw [hdep]
      exact Int.toNat_of_nonneg hd0
    refine ⟨?_, hdepth, ?_, ?_, hm, ?_⟩
    · unfold mazeCell
      dsimp only
      rw [if_pos hij, hd]
      dsimp only
      rw [if_pos hle, hch]
    · rw [hcl ch]
      exact hdepth
    · exact rndLinearStmtBlock_conds cfg d.toNat d 4 st.retCnt rnd1 ch rnd2
        (le_toNat_cast _) hch
    · simp [CellBody.markerIds, hm]
  · intro _ hpos hfit
    exact rndLinearStmtBlock_total cfg ⟨hpos, hfit⟩ d.toNat d 4 st.retCnt rnd1
      (le_toNat_cast _) (by norm_num)

theorem maze_cell_rule_witness :
    mazeCell StatefulConfig.default 0 1 ⟨zeros, 1, []⟩
      = some ⟨zeros.advance, 1 + 1, [] ++ [⟨0, 1, CellBody.wall, 1⟩]⟩ ∧
    ∃ ch rnd2, rndLinearStmtBlock StatefulConfig.default 2 4 1 twos.advance = some (ch, rnd2) ∧
      mazeCell StatefulConfig.default 0 1 ⟨twos, 1, []⟩
        = some ⟨rnd2, 1 + 1, [] ++ [⟨0, 1, CellBody.chain ch, 1⟩]⟩ ∧
      (ch.depth : Int) = 2 ∧ ch.marker = 1 := by
  constructor
  · exact ((maze_cell_rule StatefulConfig.default 0 1 ⟨zeros, 1, []⟩ 0 zeros.advance
      (by decide) rfl).2.1 (by decide)).1
  · obtain ⟨⟨ch, rnd2⟩, hch⟩ :=
      (maze_cell_rule StatefulConfig.default 0 1 ⟨twos, 1, []⟩ 2 twos.advance
        (by decide) rfl).2.2.2 (by decide) (by decide) (by decide)
    obtain ⟨h1, h2, -, -, h5, -⟩ :=
      (maze_cell_rule StatefulConfig.default 0 1 ⟨twos, 1, []⟩ 2 twos.advance
        (by decide) rfl).2.2.1 (by decide) ch rnd2 hch
    exact ⟨ch, rnd2, hch, h1, h2, h5⟩

end Daedaluzz
